import Mathlib

/-!
# Verification of the simple-smtp reply parser and command layer

A shallow embedding of the core of `src/smtp.rs` (plus the pieces of
`src/error.rs`, `src/buffer.rs` and `src/message.rs` it needs).

Bytes are `Nat` (values 0..255), buffers are `List Nat`, and the byte
stream is a queue of chunks `List (List Nat)`: a `read` hands over
`min (chunk.length, free space)` bytes of the front chunk and keeps the
remainder queued, exactly like the repository's `MockStream` test double
(`tests/mock_smtp.rs`), and like any stream that returns at most as many
bytes as the slice it is given.  A read on an exhausted queue returns
0 bytes, which `fill_buffer` converts into `UnexpectedEof`.

`u16` values are stored in the buffer in little-endian order; the code
uses `to_ne_bytes`/`from_ne_bytes` with the same order on both sides, so
any fixed order is faithful.

Loops (`fill_to_atleast`, `consume_until_newline_and_write_len_header`,
the multi-line reply loop, the `Reply` iterator) are written with a fuel
parameter so that every definition is structurally recursive and
kernel-evaluable; the public entry points instantiate the fuel with
`buffer length + 1` (each loop iteration either consumes a queued byte
or consumes at least one buffered byte, so that bound is never reached
on inputs that fit the buffer).
-/

namespace SimpleSmtp

/-- Low byte of a `u16` stored into the buffer (`u16::to_ne_bytes`, byte 0). -/
def lo16 (n : Nat) : Nat := n % 256

/-- High byte of a `u16` stored into the buffer (`u16::to_ne_bytes`, byte 1). -/
def hi16 (n : Nat) : Nat := n / 256 % 256

/-- Rust's `u16::from_ne_bytes([a, b])` with the same byte order as `lo16`/`hi16`. -/
def decode16 (a b : Nat) : Nat := a + 256 * b

/-- ASCII decimal digit test. -/
def isDigitByte (b : Nat) : Bool := 48 ≤ b && b ≤ 57

/-- Write `data` into `l` starting at index `off` (Rust `copy_from_slice`
into `&mut l[off..off + data.len()]`; positions past the end are dropped,
which never happens on the in-bounds uses proved below). -/
def writeBytes : List Nat → Nat → List Nat → List Nat
  | l, _, [] => l
  | l, off, b :: bs => writeBytes (l.set off b) (off + 1) bs

/-- ASCII bytes of a string (all source strings involved are ASCII). -/
def strBytes (s : String) : List Nat := s.data.map Char.toNat

/-- Rust's `MalformedError` from `src/error.rs`. -/
inductive MalformedError where
  | invalidLineTermination
  | invalidEncoding
  | noCode
  | unexpectedCode (expected : List Nat) (actual : Nat)
  | codeChanged (oldCode newCode : Nat)
  | unexpectedEof
  deriving DecidableEq, Repr

/-- Rust's `ProtocolError` from `src/error.rs`.  The `invalidHeader` variant is
used by `Smtp::send_message` in `src/smtp.rs` and by the integration
tests, but its declaration is missing from the `ProtocolError` enum in
`src/error.rs`;  Modelled from the spec: `InvalidHeader(name)` — header
value contained CRLF. -/
inductive ProtocolError where
  | authorizationError
  | lineTooLong
  | invalidHeader (name : String)
  | unsupportedExtension
  deriving DecidableEq, Repr

/-- Rust's `Error<T>` from `src/error.rs` (the transport error type is left
abstract: no modelled operation ever produces `ioError`). -/
inductive SmtpErr where
  | ioError
  | protocolError (e : ProtocolError)
  | malformedError (e : MalformedError)
  deriving DecidableEq, Repr

deriving instance DecidableEq for Except

/-- The `Smtp` session state: the buffer, the unprocessed range
`buf_unprocessed = ustart..uend`, and the queued inbound stream chunks. -/
structure SmtpState where
  buf : List Nat
  ustart : Nat
  uend : Nat
  input : List (List Nat)
  deriving DecidableEq, Repr

/-- Rust's `Smtp::fill_buffer`: read into `buf[uend..]`; 0 bytes ⇒ `UnexpectedEof`,
otherwise extend the unprocessed range by the bytes received. -/
def fill_buffer (s : SmtpState) : Except SmtpErr SmtpState :=
  match s.input with
  | [] => .error (.malformedError .unexpectedEof)
  | chunk :: rest =>
    let n := min chunk.length (s.buf.length - s.uend)
    if n = 0 then .error (.malformedError .unexpectedEof)
    else .ok { buf := writeBytes s.buf s.uend (chunk.take n),
               ustart := s.ustart,
               uend := s.uend + n,
               input := if chunk.length ≤ n then rest else chunk.drop n :: rest }

/-- Rust's `Smtp::fill_to_atleast`, with fuel (the loop fills at least one byte
per iteration, so `buf.length + 1` fuel is never exhausted). -/
def fill_to_atleastF : Nat → SmtpState → Nat → Except SmtpErr SmtpState
  | 0, _, _ => .error (.malformedError .unexpectedEof)
  | fuel + 1, s, n =>
    if s.uend - s.ustart < n then
      match fill_buffer s with
      | .error e => .error e
      | .ok s1 => fill_to_atleastF fuel s1 n
    else .ok s

def fill_to_atleast (s : SmtpState) (n : Nat) : Except SmtpErr SmtpState :=
  fill_to_atleastF (s.buf.length + 1) s n

/-- Rust's `Smtp::consume`: ensure `n` unprocessed bytes, return them and advance
the range start. -/
def consume (s : SmtpState) (n : Nat) : Except SmtpErr (List Nat × SmtpState) :=
  match fill_to_atleast s n with
  | .error e => .error e
  | .ok s1 => .ok ((s1.buf.drop s1.ustart).take n, { s1 with ustart := s1.ustart + n })

/-- The unprocessed slice `&self.buf[self.buf_unprocessed.clone()]`. -/
def region (s : SmtpState) : List Nat := (s.buf.drop s.ustart).take (s.uend - s.ustart)

/-- The scan loop of `Smtp::buffer_contains_terminator` over the
unprocessed slice: `ok (some idx)` = CRLF found with text length `idx`,
`ok none` = need more data, error = bare LF or CR followed by non-LF. -/
def scanTerminator : List Nat → Except SmtpErr (Option Nat)
  | [] => .ok none
  | c :: rest =>
    if c = 13 then
      match rest with
      | [] => .ok none
      | d :: _ =>
        if d = 10 then .ok (some 0)
        else .error (.malformedError .invalidLineTermination)
    else if c = 10 then .error (.malformedError .invalidLineTermination)
    else
      match scanTerminator rest with
      | .error e => .error e
      | .ok none => .ok none
      | .ok (some idx) => .ok (some (idx + 1))

/-- Rust's `Smtp::buffer_contains_terminator`: on success returns the text range
as (start, length) and advances `ustart` past the CRLF. -/
def buffer_contains_terminator (s : SmtpState) :
    Except SmtpErr (Option (Nat × Nat) × SmtpState) :=
  match scanTerminator (region s) with
  | .error e => .error e
  | .ok none => .ok (none, s)
  | .ok (some idx) => .ok (some (s.ustart, idx), { s with ustart := s.ustart + idx + 2 })

/-- Rust's `Smtp::consume_until_newline_and_write_len_header`, with fuel: find
the CRLF (filling as needed), overwrite the two bytes before the text
with the text length as a `u16` (`len as u16` truncates, hence
`lo16`/`hi16`), and return the text slice. -/
def consume_until_newlineF : Nat → SmtpState → Except SmtpErr (List Nat × SmtpState)
  | 0, _ => .error (.malformedError .unexpectedEof)
  | fuel + 1, s =>
    match buffer_contains_terminator s with
    | .error e => .error e
    | .ok (some (mstart, len), s1) =>
      let buf1 := writeBytes s1.buf (mstart - 2) [lo16 len, hi16 len]
      .ok ((buf1.drop mstart).take len, { s1 with buf := buf1 })
    | .ok (none, s1) =>
      match fill_buffer s1 with
      | .error e => .error e
      | .ok s2 => consume_until_newlineF fuel s2

def consume_until_newline (s : SmtpState) : Except SmtpErr (List Nat × SmtpState) :=
  consume_until_newlineF (s.buf.length + 1) s

/-- The code parse in `Smtp::read_line`:
`core::str::from_utf8(bytes).map(|s| s.parse::<u16>())` on the 3 consumed
bytes.  Rust's `u16` `FromStr` accepts an optional leading `+` sign, so
besides three ASCII digits the form `+DD` also parses; every other
3-byte string (including non-UTF-8 bytes) fails. -/
def parseCode3 (l : List Nat) : Option Nat :=
  match l with
  | [a, b, c] =>
    if isDigitByte a && isDigitByte b && isDigitByte c then
      some ((a - 48) * 100 + (b - 48) * 10 + (c - 48))
    else if a = 43 && isDigitByte b && isDigitByte c then
      some ((b - 48) * 10 + (c - 48))
    else none
  | _ => none

/-- UTF-8 validation (`core::str::from_utf8`) as a byte-driven state
machine: `pending` holds the admissible ranges of the continuation
bytes still owed by the current multi-byte sequence.  A fresh byte
classifies per the RFC 3629 table: C2..DF lead 1 continuation,
E0/E1..EC/ED/EE..EF lead 2 (first one range-restricted for E0/ED),
F0/F1..F3/F4 lead 3 (first one range-restricted for F0/F4); 80..C1 and
F5..FF are invalid as lead bytes. -/
def isUtf8Go : List (Nat × Nat) → List Nat → Bool
  | [], [] => true
  | _ :: _, [] => false
  | (lo, hiB) :: pend, b :: rest =>
    if lo ≤ b ∧ b ≤ hiB then isUtf8Go pend rest else false
  | [], b :: rest =>
    if b < 0x80 then isUtf8Go [] rest
    else if b < 0xC2 then false
    else if b < 0xE0 then isUtf8Go [(0x80, 0xBF)] rest
    else if b = 0xE0 then isUtf8Go [(0xA0, 0xBF), (0x80, 0xBF)] rest
    else if b = 0xED then isUtf8Go [(0x80, 0x9F), (0x80, 0xBF)] rest
    else if b < 0xF0 then isUtf8Go [(0x80, 0xBF), (0x80, 0xBF)] rest
    else if b = 0xF0 then isUtf8Go [(0x90, 0xBF), (0x80, 0xBF), (0x80, 0xBF)] rest
    else if b < 0xF4 then isUtf8Go [(0x80, 0xBF), (0x80, 0xBF), (0x80, 0xBF)] rest
    else if b = 0xF4 then isUtf8Go [(0x80, 0x8F), (0x80, 0xBF), (0x80, 0xBF)] rest
    else false

/-- UTF-8 validity of a byte list (`core::str::from_utf8`). -/
def isUtf8 (l : List Nat) : Bool := isUtf8Go [] l

/-- Rust's `ReplyLine` (code, continuation flag, text bytes). -/
structure ReplyLineM where
  code : Nat
  is_last : Bool
  message : List Nat
  deriving DecidableEq, Repr

/-- Rust's `Smtp::read_line`: 3 code bytes, separator byte (space = last,
dash = continuation), then the text up to CRLF, UTF-8 checked. -/
def read_line (s : SmtpState) : Except SmtpErr (ReplyLineM × SmtpState) :=
  match consume s 3 with
  | .error e => .error e
  | .ok (codeBytes, s1) =>
    match parseCode3 codeBytes with
    | none => .error (.malformedError .noCode)
    | some code =>
      match consume s1 1 with
      | .error e => .error e
      | .ok (sepBytes, s2) =>
        match (if sepBytes = [32] then some true
               else if sepBytes = [45] then some false
               else none) with
        | none => .error (.malformedError .invalidEncoding)
        | some is_last =>
          match consume_until_newline s2 with
          | .error e => .error e
          | .ok (msg, s3) =>
            if isUtf8 msg then .ok ({ code, is_last, message := msg }, s3)
            else .error (.malformedError .invalidEncoding)

/-- Rust's `Reply` (code, current line length, tail of the parsed region). -/
structure ReplyM where
  code : Nat
  message_len : Nat
  remaining : List Nat
  deriving DecidableEq, Repr

/-- Rust's `Reply::from_buffer` (the two `panic!("Buffer too small")` guards
cannot fire on regions produced by `read_multiline_reply`, whose first
line alone contributes at least 6 bytes; out-of-range reads below
default to 0). -/
def ReplyM.from_buffer (buffer : List Nat) : ReplyM :=
  { code := decode16 (buffer.getD 0 0) (buffer.getD 1 0)
    message_len := decode16 (buffer.getD 2 0) (buffer.getD 3 0)
    remaining := buffer.drop 4 }

/-- The `while !is_last` loop of `Smtp::read_multiline_reply`, with fuel:
read a line, require the code unchanged, stop at the space-separated
line. -/
def read_multiline_loopF : Nat → Nat → SmtpState → Except SmtpErr SmtpState
  | 0, _, _ => .error (.malformedError .unexpectedEof)
  | fuel + 1, expectedCode, s =>
    match read_line s with
    | .error e => .error e
    | .ok (r, s1) =>
      if r.code ≠ expectedCode then
        .error (.malformedError (.codeChanged expectedCode r.code))
      else if r.is_last then .ok s1
      else read_multiline_loopF fuel expectedCode s1

/-- Rust's `Smtp::read_multiline_reply`: reset the unprocessed range to `0..0`,
read the first line, loop until the last line, overwrite bytes 0..2 of
the buffer with the code, and hand back a `Reply` over
`buf[..buf_unprocessed.start]`. -/
def read_multiline_reply (s : SmtpState) : Except SmtpErr (ReplyM × SmtpState) :=
  let s0 : SmtpState := { s with ustart := 0, uend := 0 }
  match read_line s0 with
  | .error e => .error e
  | .ok (r, s1) =>
    match (if r.is_last then .ok s1
           else read_multiline_loopF (s1.buf.length + 1) r.code s1) with
    | .error e => .error e
    | .ok s2 =>
      let buf1 := writeBytes s2.buf 0 [lo16 r.code, hi16 r.code]
      .ok (ReplyM.from_buffer (buf1.take s2.ustart), { s2 with buf := buf1 })

/-- Run `read_multiline_reply` on a fresh session with a zeroed buffer of
capacity `cap` and the server bytes queued as stream chunks. -/
def runReply (cap : Nat) (chunks : List (List Nat)) : Except SmtpErr (ReplyM × SmtpState) :=
  read_multiline_reply { buf := List.replicate cap 0, ustart := 0, uend := 0, input := chunks }

/-- Rust's `<Reply as Iterator>::next`, iterated to a list (fuel-bounded; the
tail shrinks by at least 6 bytes per produced line, so
`remaining.length + 1` fuel suffices): yield the `message_len`-byte text,
stop when fewer than 6 bytes follow, else skip the 6 gap bytes after
reading the next length from gap bytes 4 and 5. -/
def replyLinesF : Nat → Nat → List Nat → List (List Nat)
  | 0, _, _ => []
  | fuel + 1, message_len, rem =>
    if rem.isEmpty then []
    else
      let this := rem.take message_len
      let next := rem.drop message_len
      if next.length < 6 then [this]
      else this :: replyLinesF fuel (decode16 (next.getD 4 0) (next.getD 5 0)) (next.drop 6)

/-- Rust's `Reply::lines()` collected into a list. -/
def ReplyM.lines (r : ReplyM) : List (List Nat) :=
  replyLinesF (r.remaining.length + 1) r.message_len r.remaining

/-- Rust's `Reply::replies()` collected into a list: `end` is the end of the
whole `remaining_buffer`, each line's `is_last` compares its text's end
offset against it (`end - my_end < 2`). -/
def repliesF : Nat → Nat → Nat → List Nat → Nat → Nat → List ReplyLineM
  | 0, _, _, _, _, _ => []
  | fuel + 1, code, message_len, rem, off, endPos =>
    if rem.isEmpty then []
    else
      let this := rem.take message_len
      let next := rem.drop message_len
      let line : ReplyLineM :=
        { code, is_last := decide (endPos - (off + this.length) < 2), message := this }
      if next.length < 6 then [line]
      else line :: repliesF fuel code (decode16 (next.getD 4 0) (next.getD 5 0))
                     (next.drop 6) (off + this.length + 6) endPos

def ReplyM.replies (r : ReplyM) : List ReplyLineM :=
  repliesF (r.remaining.length + 1) r.code r.message_len r.remaining 0 r.remaining.length

/-- Rust's `Reply::current_line`: the text of the line at the cursor. -/
def ReplyM.current_line (r : ReplyM) : List Nat := r.remaining.take r.message_len

/-- Rust's `str::split_once(' ')`: the text strictly before / strictly after the
first space, or `none` when there is no space. -/
def splitOnceSpace : List Nat → Option (List Nat × List Nat)
  | [] => none
  | b :: rest =>
    if b = 32 then some ([], rest)
    else (splitOnceSpace rest).map (fun p => (b :: p.1, p.2))

/-- Rust's `Ready` (parsed greeting). -/
structure ReadyM where
  hostname : List Nat
  reply : ReplyM
  deriving DecidableEq, Repr

/-- Rust's `Ready::new`: hostname = text before the first space of the first
line, or the whole first line when it has no space. -/
def ReadyM.new (reply : ReplyM) : ReadyM :=
  let first_line := reply.current_line
  { hostname := match splitOnceSpace first_line with
                | some p => p.1
                | none => first_line
    reply := reply }

/-- Rust's `Smtp::ready`: read the greeting, require code 220, wrap in `Ready`. -/
def ready (s : SmtpState) : Except SmtpErr (ReadyM × SmtpState) :=
  match read_multiline_reply s with
  | .error e => .error e
  | .ok (reply, s1) =>
    if reply.code ≠ 220 then
      .error (.malformedError (.unexpectedCode [220] reply.code))
    else .ok (ReadyM.new reply, s1)

/-! ## Dot-stuffing (`Smtp::send_message` body loop and `find_crlf_dot`) -/

/-- Rust's `find_crlf_dot`: position of the first `\r\n.` window (position of
the `\r`), or `none` (in particular on inputs shorter than 3 bytes). -/
def find_crlf_dot : List Nat → Option Nat
  | b :: c :: d :: rest =>
    if b = 13 ∧ c = 10 ∧ d = 46 then some 0
    else (find_crlf_dot (c :: d :: rest)).map (· + 1)
  | _ => none

/-- The body loop of `send_message` (lines 687–712 of `src/smtp.rs`),
with fuel (each round drops at least 2 bytes, so `body.length + 1` fuel
is never exhausted): write up to and including each `\r\n` that precedes
a dot, then a `.`, resuming at the original dot; write the tail when no
`\r\n.` remains. -/
def stuffLoopF : Nat → List Nat → List Nat
  | 0, _ => []
  | fuel + 1, body =>
    match find_crlf_dot body with
    | some i => body.take (i + 2) ++ [46] ++ stuffLoopF fuel (body.drop (i + 2))
    | none => body

/-- The full dot-stuffing of a body: a leading `.` when the body starts
with one, then the stuffing loop. -/
def dot_stuff (body : List Nat) : List Nat :=
  (match body with | 46 :: _ => [46] | _ => []) ++ stuffLoopF (body.length + 1) body

/-- The bytes `send_message` sends for the DATA payload: the stuffed
body followed by the `\r\n.\r\n` end-of-data marker. -/
def bodyWire (body : List Nat) : List Nat := dot_stuff body ++ [13, 10, 46, 13, 10]

/-- Modelled from the spec: the loop of the receiver's un-stuffing (the
spec's `unstuff`; it has no counterpart under `src/`): after every
`\r\n`, drop one immediately following `.`. -/
def unstuffLoopF : Nat → List Nat → List Nat
  | 0, _ => []
  | fuel + 1, wire =>
    match find_crlf_dot wire with
    | some i => wire.take (i + 2) ++ unstuffLoopF fuel (wire.drop (i + 3))
    | none => wire

/-- Modelled from the spec: the receiver's un-stuffing: drop a leading
`.`, then drop the `.` after every `\r\n.`. -/
def unstuff (wire : List Nat) : List Nat :=
  match wire with
  | 46 :: rest => unstuffLoopF (rest.length + 1) rest
  | _ => unstuffLoopF (wire.length + 1) wire

/-! ## AUTH PLAIN (`Smtp::auth`) -/

/-- The standard base64 alphabet (`BASE64_STANDARD`), as ASCII bytes. -/
def b64Char (n : Nat) : Nat :=
  if n < 26 then 65 + n
  else if n < 52 then 97 + (n - 26)
  else if n < 62 then 48 + (n - 52)
  else if n = 62 then 43
  else 47

/-- Standard base64 with `=` padding (`BASE64_STANDARD.encode_slice`). -/
def base64Encode : List Nat → List Nat
  | b0 :: b1 :: b2 :: rest =>
    b64Char (b0 / 4) :: b64Char (b0 % 4 * 16 + b1 / 16) ::
    b64Char (b1 % 16 * 4 + b2 / 64) :: b64Char (b2 % 64) :: base64Encode rest
  | [b0, b1] => [b64Char (b0 / 4), b64Char (b0 % 4 * 16 + b1 / 16), b64Char (b1 % 16 * 4), 61]
  | [b0] => [b64Char (b0 / 4), b64Char (b0 % 4 * 16), 61, 61]
  | [] => []

/-- Rust's `Smtp::auth`: assemble `\0 user \0 pass` at the front of the read
buffer, base64-encode it into the buffer's tail, send
`AUTH PLAIN <payload>\r\n`, then read the reply and require code 235.
The result pairs the command outcome with the bytes written to the
stream; `none` models the `encode_slice(...).unwrap()` panic when the
buffer tail cannot hold the encoding. -/
def auth (s : SmtpState) (username password : List Nat) :
    Option (Except SmtpErr (ReplyM × SmtpState) × List Nat) :=
  let plainLen := username.length + 2 + password.length
  let buf1 := writeBytes s.buf 0 (0 :: username ++ 0 :: password)
  let readPart := buf1.take plainLen
  let writePart := buf1.drop plainLen
  let payload := base64Encode readPart
  if writePart.length < payload.length then none
  else
    let wire := strBytes "AUTH PLAIN " ++ payload ++ [13, 10]
    let s1 : SmtpState := { s with buf := buf1 }
    some (match read_multiline_reply s1 with
          | .error e => .error e
          | .ok (reply, s2) =>
            if reply.code ≠ 235 then
              .error (.malformedError (.unexpectedCode [235] reply.code))
            else .ok (reply, s2),
          wire)

/-- The bytes `auth` writes to the stream (`none` = panic). -/
def authWire (s : SmtpState) (username password : List Nat) : Option (List Nat) :=
  (auth s username password).map Prod.snd

/-! ## `Message` and `Smtp::send_message` -/

/-- Rust's `Message` from `src/message.rs` (header values as ASCII/UTF-8 byte
lists; the `MessageDate` is kept abstract as its rendered bytes, date
formatting being out of the parser core). -/
structure MessageM where
  dateBytes : List Nat
  from_ : List Nat
  message_id : List Nat
  to_ : Option (List Nat) := none
  cc : Option (List Nat) := none
  bcc : Option (List Nat) := none
  subject : Option (List Nat) := none
  reply_to : Option (List Nat) := none
  in_reply_to : Option (List Nat) := none
  references : Option (List Nat) := none
  body : Option (List Nat) := none
  deriving DecidableEq, Repr

/-- Rust's `value.contains("\r\n")`. -/
def containsCrlf : List Nat → Bool
  | 13 :: 10 :: _ => true
  | _ :: rest => containsCrlf rest
  | [] => false

/-- Rust's `check_header` in `send_message`. -/
def check_header (value : List Nat) (name : String) : Except ProtocolError Unit :=
  if containsCrlf value then .error (.invalidHeader name) else .ok ()

/-- Rust's `check_header` lifted to an optional header. -/
def check_header_opt (value : Option (List Nat)) (name : String) : Except ProtocolError Unit :=
  match value with
  | some v => check_header v name
  | none => .ok ()

/-- Whether an optional header value contains CRLF. -/
def optCrlf : Option (List Nat) → Bool
  | some v => containsCrlf v
  | none => false

/-- The header values `send_message` guards, as `(value, name)` pairs in
source order (lines 511–533 of `src/smtp.rs`). -/
def checksList (m : MessageM) : List (Option (List Nat) × String) :=
  [(some m.from_, "From"), (some m.message_id, "Message-ID"),
   (m.to_, "To"), (m.cc, "Cc"), (m.bcc, "Bcc"), (m.reply_to, "Reply-To"),
   (m.subject, "Subject"), (m.in_reply_to, "In-Reply-To"),
   (m.references, "References")]

/-- Rust's `check_header` over a `(value, name)` list, short-circuiting on the
first failure, as the `?` chain in `send_message` does. -/
def runChecks : List (Option (List Nat) × String) → Except ProtocolError Unit
  | [] => .ok ()
  | (v, n) :: rest =>
    match check_header_opt v n with
    | .error e => .error e
    | .ok _ => runChecks rest

/-- The header-injection guard of `send_message` (lines 511–533): the
nine `check_header(...)?` calls in source order. -/
def sendMessageChecks (m : MessageM) : Except ProtocolError Unit :=
  runChecks (checksList m)

/-- An optional header rendered as `Name: value\r\n`, or nothing. -/
def headerLine (name : String) (value : Option (List Nat)) : List Nat :=
  match value with
  | some v => strBytes name ++ v ++ [13, 10]
  | none => []

/-- The header block and body `send_message` streams after the `354`
reply: Date, From, Message-ID (in angle brackets), the optional headers
in source order, the blank line, and the dot-stuffed body with its
end-of-data marker. -/
def messagePayload (m : MessageM) : List Nat :=
  strBytes "Date: " ++ m.dateBytes ++ [13, 10] ++
  strBytes "From: " ++ m.from_ ++ [13, 10] ++
  strBytes "Message-ID: <" ++ m.message_id ++ strBytes ">\r\n" ++
  headerLine "To: " m.to_ ++
  headerLine "Cc: " m.cc ++
  headerLine "Bcc: " m.bcc ++
  headerLine "Reply-To: " m.reply_to ++
  headerLine "Subject: " m.subject ++
  headerLine "In-Reply-To: " m.in_reply_to ++
  headerLine "References: " m.references ++
  [13, 10] ++
  (match m.body with
   | some b => dot_stuff b
   | none => []) ++
  [13, 10, 46, 13, 10]

/-- One `command → reply → expect code` exchange of the sequencer: write
`cmd`, read a multi-line reply, fail on an unexpected code. -/
def exchange (s : SmtpState) (cmd : List Nat) (expected : Nat) (written : List Nat) :
    Except SmtpErr SmtpState × List Nat :=
  let written1 := written ++ cmd
  match read_multiline_reply s with
  | .error e => (.error e, written1)
  | .ok (reply, s1) =>
    if reply.code ≠ expected then
      (.error (.malformedError (.unexpectedCode [expected] reply.code)), written1)
    else (.ok s1, written1)

/-- The `RCPT TO` loop of `send_message`. -/
def rcptLoop (s : SmtpState) (envTo : List (List Nat)) (written : List Nat) :
    Except SmtpErr SmtpState × List Nat :=
  match envTo with
  | [] => (.ok s, written)
  | rcpt :: rest =>
    match exchange s (strBytes "RCPT TO:<" ++ rcpt ++ strBytes ">\r\n") 250 written with
    | (.error e, w) => (.error e, w)
    | (.ok s1, w) => rcptLoop s1 rest w

/-- Rust's `Smtp::send_message`: validate all supplied header values for CRLF
before writing anything, then run the
`MAIL FROM → RCPT TO* → DATA → payload` exchange.  Returns the command
outcome paired with every byte written to the stream. -/
def send_message (s : SmtpState) (m : MessageM) (envFrom : List Nat)
    (envTo : List (List Nat)) : Except SmtpErr Unit × List Nat :=
  match sendMessageChecks m with
  | .error e => (.error (.protocolError e), [])
  | .ok _ =>
    match exchange s (strBytes "MAIL FROM:<" ++ envFrom ++ strBytes ">\r\n") 250 [] with
    | (.error e, w) => (.error e, w)
    | (.ok s1, w) =>
      match rcptLoop s1 envTo w with
      | (.error e, w1) => (.error e, w1)
      | (.ok s2, w1) =>
        match exchange s2 (strBytes "DATA\r\n") 354 w1 with
        | (.error e, w2) => (.error e, w2)
        | (.ok s3, w2) =>
          match exchange s3 (messagePayload m) 250 w2 with
          | (.error e, w3) => (.error e, w3)
          | (.ok _, w3) => (.ok (), w3)

/-! ## Shapes of well-formed replies, for the statements below -/

/-- One wire reply line `DDD<sep>text\r\n`. -/
def rawLine (d0 d1 d2 sep : Nat) (t : List Nat) : List Nat :=
  d0 :: d1 :: d2 :: sep :: (t ++ [13, 10])

/-- The same line after `read_line` processed it: the third digit and the
separator are overwritten with the text length as a `u16`. -/
def procLine (d0 d1 : Nat) (t : List Nat) : List Nat :=
  d0 :: d1 :: lo16 t.length :: hi16 t.length :: (t ++ [13, 10])

/-- A run of continuation (dash-separated) lines. -/
def contLines (d0 d1 d2 : Nat) : List (List Nat) → List Nat
  | [] => []
  | t :: ts => rawLine d0 d1 d2 45 t ++ contLines d0 d1 d2 ts

/-- A full well-formed reply: continuation lines, then the final
space-separated line, all with the same code digits. -/
def rawReply (d0 d1 d2 : Nat) (mids : List (List Nat)) (tlast : List Nat) : List Nat :=
  contLines d0 d1 d2 mids ++ rawLine d0 d1 d2 32 tlast

/-- A run of processed lines. -/
def procLines (d0 d1 : Nat) : List (List Nat) → List Nat
  | [] => []
  | t :: ts => procLine d0 d1 t ++ procLines d0 d1 ts

/-- A full well-formed reply with lines `t0 :: others`: every line but
the last carries the dash continuation marker, the last a space, all
with the same code digits. -/
def rawReplyNE (d0 d1 d2 : Nat) : List Nat → List (List Nat) → List Nat
  | t0, [] => rawLine d0 d1 d2 32 t0
  | t0, t1 :: rest => rawLine d0 d1 d2 45 t0 ++ rawReplyNE d0 d1 d2 t1 rest

/-- The numeric value of the 3 ASCII digits of a code. -/
def codeVal (d0 d1 d2 : Nat) : Nat := (d0 - 48) * 100 + (d1 - 48) * 10 + (d2 - 48)

/-- A session state whose buffer splits into a processed part `done`
(the parser cursor sits right after it), a loaded-but-unprocessed part
`rest` (the unprocessed range ends right after it), and untouched
trailing bytes `pad`. -/
def stateAt (done rest pad : List Nat) (inp : List (List Nat)) : SmtpState :=
  { buf := done ++ rest ++ pad
    ustart := done.length
    uend := done.length + rest.length
    input := inp }

/-- A byte list with neither CR nor LF, valid as UTF-8: the text of one
well-formed reply line (ASCII reply text satisfies this). -/
def textOk (t : List Nat) : Prop := 13 ∉ t ∧ 10 ∉ t ∧ isUtf8 t = true

instance (t : List Nat) : Decidable (textOk t) :=
  inferInstanceAs (Decidable (13 ∉ t ∧ 10 ∉ t ∧ isUtf8 t = true))

/-- The range invariant of the session (`0 ≤ start ≤ end ≤ capacity`). -/
def rangeInv (s : SmtpState) : Prop :=
  s.ustart ≤ s.uend ∧ s.uend ≤ s.buf.length

/-- The lines of the `Reply` produced by a run, `none` on error. -/
def linesOfResult : Except SmtpErr (ReplyM × SmtpState) → Option (List (List Nat))
  | .ok (r, _) => some r.lines
  | .error _ => none

/-- The `ReplyLine`s of the `Reply` produced by a run, `none` on error. -/
def repliesOfResult : Except SmtpErr (ReplyM × SmtpState) → Option (List ReplyLineM)
  | .ok (r, _) => some r.replies
  | .error _ => none

/-- The code of the `ReplyLine` produced by `read_line`, `none` on error. -/
def lineCodeOfResult : Except SmtpErr (ReplyLineM × SmtpState) → Option Nat
  | .ok (r, _) => some r.code
  | .error _ => none

/-- The hostname from a successful `ready()`, `none` on error. -/
def readyHostname (s : SmtpState) : Option (List Nat) :=
  match ready s with
  | .ok (r, _) => some r.hostname
  | .error _ => none

/-- The first greeting line from a successful `ready()`, `none` on error. -/
def readyFirstLine (s : SmtpState) : Option (List Nat) :=
  match ready s with
  | .ok (r, _) => some r.reply.current_line
  | .error _ => none

/-! ## Concrete inputs and property checkers used by the theorems below -/

def c5state : SmtpState :=
  { buf := strBytes "220 welc", ustart := 0, uend := 8,
    input := [strBytes "ome!\r\n"] }

def c6state : SmtpState :=
  { buf := strBytes "220 OK\r\n", ustart := 0, uend := 8, input := [] }

def c6plus : SmtpState :=
  { buf := strBytes "+20 Hi\r\n", ustart := 0, uend := 8, input := [] }

/-- Property formalisation for C3: every `\r\n.` window in the wire is
followed by a second `.`, i.e. no line after the first begins with a
single dot (the scan advances one byte at a time, so overlapping windows
are all checked). -/
def headIs46 : List Nat → Bool
  | 46 :: _ => true
  | _ => false

def crlfDotDoubled : List Nat → Bool
  | b :: c :: d :: rest =>
    if b = 13 ∧ c = 10 ∧ d = 46 then
      headIs46 rest && crlfDotDoubled (c :: d :: rest)
    else crlfDotDoubled (c :: d :: rest)
  | _ => true

/-- Property formalisation for C3: if the wire's first line begins with a
dot, it begins with two. -/
def firstLineOk : List Nat → Bool
  | 46 :: 46 :: _ => true
  | 46 :: _ => false
  | _ => true

def c4msg : MessageM :=
  { dateBytes := strBytes "Tue, 1 Jan 2030 00:00:00 +0000",
    from_ := strBytes "a@example.com",
    message_id := strBytes "id@example.com",
    subject := some (strBytes "Hi\r\nX-Evil: yes") }

def c8state : SmtpState :=
  { buf := List.replicate 16 0, ustart := 0, uend := 0, input := [] }

def c10state : SmtpState :=
  { buf := List.replicate 64 0, ustart := 0, uend := 0,
    input := [strBytes "220 mail.example.com ESMTP ready\r\n"] }

/-! ## Supporting lemmas: `writeBytes` -/

theorem writeBytes_length : ∀ (d l : List Nat) (off : Nat),
    (writeBytes l off d).length = l.length := by
  intro d
  induction d with
  | nil => intro l off; rfl
  | cons b bs ih => intro l off; simp [writeBytes, ih, List.length_set]

theorem set_append_right : ∀ (A B : List Nat) (k b : Nat),
    (A ++ B).set (A.length + k) b = A ++ B.set k b := by
  intro A
  induction A with
  | nil => intro B k b; simp
  | cons a A ih =>
    intro B k b
    have h : (a :: A).length + k = (A.length + k) + 1 := by simp [List.length_cons]; omega
    rw [h, List.cons_append, List.set_cons_succ, ih, List.cons_append]

theorem writeBytes_append : ∀ (d A B : List Nat) (k : Nat),
    writeBytes (A ++ B) (A.length + k) d = A ++ writeBytes B k d := by
  intro d
  induction d with
  | nil => intro A B k; rfl
  | cons b bs ih =>
    intro A B k
    simp only [writeBytes]
    rw [set_append_right]
    have h : A.length + k + 1 = A.length + (k + 1) := by omega
    rw [h, ih]

theorem writeBytes_cons_succ : ∀ (d : List Nat) (c : Nat) (l : List Nat) (k : Nat),
    writeBytes (c :: l) (k + 1) d = c :: writeBytes l k d := by
  intro d
  induction d with
  | nil => intro c l k; rfl
  | cons b bs ih =>
    intro c l k
    simp only [writeBytes, List.set_cons_succ]
    exact ih c (l.set k b) (k + 1)

theorem writeBytes_full : ∀ (d l : List Nat), d.length ≤ l.length →
    writeBytes l 0 d = d ++ l.drop d.length := by
  intro d
  induction d with
  | nil => intro l h; simp [writeBytes]
  | cons b bs ih =>
    intro l h
    cases l with
    | nil => simp at h
    | cons c l2 =>
      simp only [writeBytes, List.set_cons_zero]
      rw [writeBytes_cons_succ]
      simp only [List.length_cons] at h
      rw [ih l2 (by omega)]
      simp

theorem writeBytes_two (u v x y : Nat) (w : List Nat) :
    writeBytes (u :: v :: w) 0 [x, y] = x :: y :: w := rfl

/-! ## Supporting lemmas: the terminator scan -/

theorem scanTerminator_clean : ∀ (t : List Nat), 13 ∉ t → 10 ∉ t →
    ∀ r, scanTerminator (t ++ 13 :: 10 :: r) = .ok (some t.length) := by
  intro t
  induction t with
  | nil => intro _ _ r; simp [scanTerminator]
  | cons b bs ih =>
    intro h13 h10 r
    simp only [List.mem_cons, not_or] at h13 h10
    have hb13 : ¬ b = 13 := fun h => h13.1 h.symm
    have hb10 : ¬ b = 10 := fun h => h10.1 h.symm
    simp only [List.cons_append, scanTerminator, if_neg hb13, if_neg hb10]
    rw [show bs.append (13 :: 10 :: r) = bs ++ 13 :: 10 :: r from rfl,
      ih h13.2 h10.2 r]
    simp

theorem scanTerminator_bad : ∀ (t : List Nat), 13 ∉ t → 10 ∉ t →
    ∀ (c : Nat) (r : List Nat),
    (c = 10 ∨ (c = 13 ∧ ∃ x xs, r = x :: xs ∧ x ≠ 10)) →
    scanTerminator (t ++ c :: r) = .error (.malformedError .invalidLineTermination) := by
  intro t
  induction t with
  | nil =>
    intro _ _ c r hc
    rcases hc with rfl | ⟨rfl, x, xs, rfl, hx⟩
    · simp [scanTerminator]
    · simp [scanTerminator, hx]
  | cons b bs ih =>
    intro h13 h10 c r hc
    simp only [List.mem_cons, not_or] at h13 h10
    have hb13 : ¬ b = 13 := fun h => h13.1 h.symm
    have hb10 : ¬ b = 10 := fun h => h10.1 h.symm
    simp only [List.cons_append, scanTerminator, if_neg hb13, if_neg hb10]
    rw [show bs.append (c :: r) = bs ++ c :: r from rfl, ih h13.2 h10.2 c r hc]

theorem scanTerminator_found_le : ∀ (l : List Nat) (idx : Nat),
    scanTerminator l = .ok (some idx) → idx + 2 ≤ l.length := by
  intro l
  induction l with
  | nil => intro idx h; simp [scanTerminator] at h
  | cons b bs ih =>
    intro idx h
    by_cases hb13 : b = 13
    · subst hb13
      cases bs with
      | nil => simp [scanTerminator] at h
      | cons d r =>
        by_cases hd : d = 10
        · subst hd
          simp [scanTerminator] at h
          simp only [List.length_cons]
          omega
        · simp [scanTerminator, hd] at h
    · by_cases hb10 : b = 10
      · simp [scanTerminator, hb13, hb10] at h
      · simp only [scanTerminator, if_neg hb13, if_neg hb10] at h
        rcases hrec : scanTerminator bs with e | o
        · rw [hrec] at h; simp at h
        · rw [hrec] at h
          cases o with
          | none => simp at h
          | some j =>
            simp at h
            have := ih j hrec
            simp only [List.length_cons]
            omega

/-! ## Supporting lemmas: filling and consuming -/

theorem fill_to_atleastF_done (fuel : Nat) (s : SmtpState) (n : Nat)
    (hf : 1 ≤ fuel) (h : ¬ s.uend - s.ustart < n) :
    fill_to_atleastF fuel s n = .ok s := by
  cases fuel with
  | zero => omega
  | succ f => simp [fill_to_atleastF, h]

theorem consume_loaded (s : SmtpState) (n : Nat) (h : ¬ s.uend - s.ustart < n) :
    consume s n = .ok ((s.buf.drop s.ustart).take n, { s with ustart := s.ustart + n }) := by
  unfold consume fill_to_atleast
  rw [fill_to_atleastF_done _ _ _ (by omega) h]

theorem fill_buffer_preload (cap : Nat) (R : List Nat) (rest : List (List Nat))
    (hlen : R.length ≤ cap) (hR : 0 < R.length) :
    fill_buffer { buf := List.replicate cap 0, ustart := 0, uend := 0, input := R :: rest }
      = .ok { buf := R ++ List.replicate (cap - R.length) 0,
              ustart := 0, uend := R.length, input := rest } := by
  simp only [fill_buffer, List.length_replicate, Nat.sub_zero]
  have hmin : min R.length cap = R.length := by omega
  rw [hmin, if_neg (by omega), List.take_length,
    writeBytes_full R _ (by simp; omega), List.drop_replicate]
  simp

theorem fill_to_atleastF_preload (cap : Nat) (R : List Nat) (rest : List (List Nat)) (n : Nat)
    (hlen : R.length ≤ cap) (hn : n ≤ R.length) (h0 : 0 < n) :
    fill_to_atleastF (cap + 1)
      { buf := List.replicate cap 0, ustart := 0, uend := 0, input := R :: rest } n
      = .ok { buf := R ++ List.replicate (cap - R.length) 0,
              ustart := 0, uend := R.length, input := rest } := by
  simp only [fill_to_atleastF]
  split
  · rw [fill_buffer_preload cap R rest hlen (by omega)]
    exact fill_to_atleastF_done cap _ n (by omega) (by simp; omega)
  · rename_i h
    exfalso
    simp at h
    omega

/-! ## Supporting lemmas: `read_line` on a loaded line -/

theorem parseCode3_digits (d0 d1 d2 : Nat) (hd0 : isDigitByte d0 = true)
    (hd1 : isDigitByte d1 = true) (hd2 : isDigitByte d2 = true) :
    parseCode3 [d0, d1, d2] = some (codeVal d0 d1 d2) := by
  simp [parseCode3, hd0, hd1, hd2, codeVal]

theorem SmtpState_eq {b1 b2 : List Nat} {u1 u2 e1 e2 : Nat}
    {i1 i2 : List (List Nat)} (hb : b1 = b2) (hu : u1 = u2) (he : e1 = e2) (hi : i1 = i2) :
    SmtpState.mk b1 u1 e1 i1 = SmtpState.mk b2 u2 e2 i2 := by
  subst hb; subst hu; subst he; subst hi; rfl

/-- Rust's `read_line` on a session whose `fill_to_atleast 3` lands on a state
holding one well-formed line (and then `T`) loaded after the cursor:
it returns the parsed line and overwrites the two bytes before the text
with its length. -/
theorem read_line_from_fill
    (s : SmtpState) (P t T pad : List Nat) (inp : List (List Nat)) (d0 d1 d2 sep : Nat)
    (hd0 : isDigitByte d0 = true) (hd1 : isDigitByte d1 = true) (hd2 : isDigitByte d2 = true)
    (hsep : sep = 32 ∨ sep = 45)
    (ht : textOk t)
    (hfill : fill_to_atleast s 3 = .ok (stateAt P (rawLine d0 d1 d2 sep t ++ T) pad inp)) :
    read_line s = .ok
      ({ code := codeVal d0 d1 d2, is_last := decide (sep = 32), message := t },
       stateAt (P ++ procLine d0 d1 t) T pad inp) := by
  obtain ⟨h13, h10, hutf⟩ := ht
  have hstate : stateAt P (rawLine d0 d1 d2 sep t ++ T) pad inp
      = ⟨P ++ (d0 :: d1 :: d2 :: sep :: (t ++ 13 :: 10 :: (T ++ pad))),
         P.length, P.length + (6 + t.length + T.length), inp⟩ := by
    apply SmtpState_eq
    · simp [rawLine, List.append_assoc]
    · rfl
    · simp [rawLine, List.length_append]; omega
    · rfl
  rw [hstate] at hfill
  -- cons-normal forms of the relevant drops of the loaded buffer
  have f0 : (P ++ (d0 :: d1 :: d2 :: sep :: (t ++ 13 :: 10 :: (T ++ pad)))).drop P.length
      = d0 :: d1 :: d2 :: sep :: (t ++ 13 :: 10 :: (T ++ pad)) := List.drop_left P _
  have f3 : (P ++ (d0 :: d1 :: d2 :: sep :: (t ++ 13 :: 10 :: (T ++ pad)))).drop (P.length + 3)
      = sep :: (t ++ 13 :: 10 :: (T ++ pad)) := by
    rw [← List.drop_drop, f0]
    rfl
  have f4 : (P ++ (d0 :: d1 :: d2 :: sep :: (t ++ 13 :: 10 :: (T ++ pad)))).drop (P.length + 4)
      = t ++ 13 :: 10 :: (T ++ pad) := by
    rw [← List.drop_drop, f0]
    rfl
  -- step 1: consume 3 code bytes
  have hc3 : consume s 3 = .ok ([d0, d1, d2],
      ⟨P ++ (d0 :: d1 :: d2 :: sep :: (t ++ 13 :: 10 :: (T ++ pad))),
       P.length + 3, P.length + (6 + t.length + T.length), inp⟩) := by
    simp only [consume, hfill, f0]
    rfl
  -- step 2: consume the separator byte
  have hc1 : consume ⟨P ++ (d0 :: d1 :: d2 :: sep :: (t ++ 13 :: 10 :: (T ++ pad))),
        P.length + 3, P.length + (6 + t.length + T.length), inp⟩ 1
      = .ok ([sep],
        ⟨P ++ (d0 :: d1 :: d2 :: sep :: (t ++ 13 :: 10 :: (T ++ pad))),
         P.length + 4, P.length + (6 + t.length + T.length), inp⟩) := by
    rw [consume_loaded _ 1 (by simp; omega)]
    simp only [f3]
    rfl
  -- step 3: the terminator scan on the remaining text
  have hregion : region ⟨P ++ (d0 :: d1 :: d2 :: sep :: (t ++ 13 :: 10 :: (T ++ pad))),
        P.length + 4, P.length + (6 + t.length + T.length), inp⟩ = t ++ 13 :: 10 :: T := by
    simp only [region, f4]
    have harr : t ++ 13 :: 10 :: (T ++ pad) = (t ++ 13 :: 10 :: T) ++ pad := by
      simp [List.append_assoc]
    rw [harr]
    exact List.take_left' (by simp [List.length_append]; omega)
  have hbct : buffer_contains_terminator
        ⟨P ++ (d0 :: d1 :: d2 :: sep :: (t ++ 13 :: 10 :: (T ++ pad))),
         P.length + 4, P.length + (6 + t.length + T.length), inp⟩
      = .ok (some (P.length + 4, t.length),
        ⟨P ++ (d0 :: d1 :: d2 :: sep :: (t ++ 13 :: 10 :: (T ++ pad))),
         P.length + 4 + t.length + 2, P.length + (6 + t.length + T.length), inp⟩) := by
    simp only [buffer_contains_terminator, hregion, scanTerminator_clean t h13 h10 T]
  -- step 4: the length write
  have hwrite : writeBytes (P ++ (d0 :: d1 :: d2 :: sep :: (t ++ 13 :: 10 :: (T ++ pad))))
        (P.length + 4 - 2) [lo16 t.length, hi16 t.length]
      = P ++ (d0 :: d1 :: lo16 t.length :: hi16 t.length :: (t ++ 13 :: 10 :: (T ++ pad))) := by
    have hsplit : P ++ (d0 :: d1 :: d2 :: sep :: (t ++ 13 :: 10 :: (T ++ pad)))
        = (P ++ [d0, d1]) ++ (d2 :: sep :: (t ++ 13 :: 10 :: (T ++ pad))) := by
      simp [List.append_assoc]
    have hidx : P.length + 4 - 2 = (P ++ [d0, d1]).length + 0 := by
      simp [List.length_append]
    rw [hsplit, hidx, writeBytes_append, writeBytes_two]
    simp [List.append_assoc]
  have hdropw : (P ++ (d0 :: d1 :: lo16 t.length :: hi16 t.length
        :: (t ++ 13 :: 10 :: (T ++ pad)))).drop (P.length + 4)
      = t ++ 13 :: 10 :: (T ++ pad) := by
    rw [← List.drop_drop, List.drop_left]
    rfl
  have hcun : consume_until_newline
        ⟨P ++ (d0 :: d1 :: d2 :: sep :: (t ++ 13 :: 10 :: (T ++ pad))),
         P.length + 4, P.length + (6 + t.length + T.length), inp⟩
      = .ok (t, stateAt (P ++ procLine d0 d1 t) T pad inp) := by
    simp only [consume_until_newline]
    simp only [consume_until_newlineF, hbct, hwrite, hdropw]
    have harr : t ++ 13 :: 10 :: (T ++ pad) = (t ++ 13 :: 10 :: T) ++ pad := by
      simp [List.append_assoc]
    rw [show (t ++ 13 :: 10 :: (T ++ pad)).take t.length = t from List.take_left' rfl]
    refine congrArg Except.ok (congrArg (Prod.mk t) ?_)
    apply SmtpState_eq
    · simp [procLine, List.append_assoc]
    · simp [procLine, List.length_append]; omega
    · simp [procLine, List.length_append]; omega
    · rfl
  -- assemble `read_line`
  have hsepv : (if ([sep] : List Nat) = [32] then some true
      else if ([sep] : List Nat) = [45] then some false else none)
      = some (decide (sep = 32)) := by
    rcases hsep with rfl | rfl <;> simp
  simp only [read_line, hc3, parseCode3_digits d0 d1 d2 hd0 hd1 hd2, hc1, hsepv, hcun, hutf]
  simp

/-! ## Supporting lemmas: the multi-line loop and the final layout -/

theorem length_rawLine (d0 d1 d2 sep : Nat) (t : List Nat) :
    (rawLine d0 d1 d2 sep t).length = t.length + 6 := by
  simp [rawLine] <;> omega

theorem length_procLine (d0 d1 : Nat) (t : List Nat) :
    (procLine d0 d1 t).length = t.length + 6 := by
  simp [procLine] <;> omega

theorem length_rawReplyNE (d0 d1 d2 : Nat) :
    ∀ (others : List (List Nat)) (t0 : List Nat),
    others.length + 6 ≤ (rawReplyNE d0 d1 d2 t0 others).length := by
  intro others
  induction others with
  | nil => intro t0; simp [rawReplyNE, length_rawLine]
  | cons t1 rest ih =>
    intro t0
    have := ih t1
    simp only [rawReplyNE, List.length_append, length_rawLine, List.length_cons]
    omega

theorem decode16_lo_hi (n : Nat) : decode16 (lo16 n) (hi16 n) = n % 65536 := by
  simp only [decode16, lo16, hi16]
  omega

/-- The `while !is_last` loop over the remaining lines `t1 :: others` of
a well-formed reply: it processes each line in place and stops after the
final space-separated line. -/
theorem read_multiline_loop_NE :
    ∀ (others : List (List Nat)) (t1 : List Nat) (fuel : Nat) (P pad : List Nat)
      (inp : List (List Nat)) (d0 d1 d2 : Nat),
    isDigitByte d0 = true → isDigitByte d1 = true → isDigitByte d2 = true →
    textOk t1 → (∀ u ∈ others, textOk u) →
    others.length + 1 ≤ fuel →
    read_multiline_loopF fuel (codeVal d0 d1 d2)
        (stateAt P (rawReplyNE d0 d1 d2 t1 others) pad inp)
      = .ok (stateAt (P ++ procLines d0 d1 (t1 :: others)) [] pad inp) := by
  intro others
  induction others with
  | nil =>
    intro t1 fuel P pad inp d0 d1 d2 hd0 hd1 hd2 ht1 _ hfuel
    cases fuel with
    | zero => omega
    | succ f =>
      simp only [read_multiline_loopF, rawReplyNE]
      have hfill : fill_to_atleast (stateAt P (rawLine d0 d1 d2 32 t1) pad inp) 3
          = .ok (stateAt P (rawLine d0 d1 d2 32 t1 ++ []) pad inp) := by
        rw [List.append_nil]
        exact fill_to_atleastF_done _ _ _ (by omega)
          (by simp [stateAt, length_rawLine] <;> omega)
      rw [read_line_from_fill _ P t1 [] pad inp d0 d1 d2 32 hd0 hd1 hd2 (Or.inl rfl) ht1 hfill]
      simp [procLines]
  | cons t2 rest ih =>
    intro t1 fuel P pad inp d0 d1 d2 hd0 hd1 hd2 ht1 hoth hfuel
    cases fuel with
    | zero => simp at hfuel
    | succ f =>
      simp only [read_multiline_loopF, rawReplyNE]
      have hfill : fill_to_atleast
          (stateAt P (rawLine d0 d1 d2 45 t1 ++ rawReplyNE d0 d1 d2 t2 rest) pad inp) 3
          = .ok (stateAt P (rawLine d0 d1 d2 45 t1 ++ rawReplyNE d0 d1 d2 t2 rest) pad inp) :=
        fill_to_atleastF_done _ _ _ (by omega)
          (by simp [stateAt, length_rawLine] <;> omega)
      rw [read_line_from_fill _ P t1 (rawReplyNE d0 d1 d2 t2 rest) pad inp d0 d1 d2 45
        hd0 hd1 hd2 (Or.inr rfl) ht1 hfill]
      simp only [decide_eq_true_eq]
      rw [if_neg (by simp)]
      rw [if_neg (by simp)]
      rw [ih t2 f (P ++ procLine d0 d1 t1) pad inp d0 d1 d2 hd0 hd1 hd2
        (hoth t2 (by simp)) (fun u hu => hoth u (by simp [hu])) (by simp at hfuel ⊢; omega)]
      simp [procLines, List.append_assoc]

theorem isDigitByte_bounds {b : Nat} (h : isDigitByte b = true) : 48 ≤ b ∧ b ≤ 57 := by
  simp only [isDigitByte, Bool.and_eq_true, decide_eq_true_eq] at h
  exact h

theorem codeVal_lt {d0 d1 d2 : Nat} (hd0 : isDigitByte d0 = true)
    (hd1 : isDigitByte d1 = true) (hd2 : isDigitByte d2 = true) :
    codeVal d0 d1 d2 < 65536 := by
  have h0 := isDigitByte_bounds hd0
  have h1 := isDigitByte_bounds hd1
  have h2 := isDigitByte_bounds hd2
  simp only [codeVal]
  omega

theorem from_buffer_cons (a b c d : Nat) (rest : List Nat) :
    ReplyM.from_buffer (a :: b :: c :: d :: rest) = ⟨decode16 a b, decode16 c d, rest⟩ := rfl

theorem length_procLines_raw (d0 d1 d2 : Nat) :
    ∀ (others : List (List Nat)) (t0 : List Nat),
    (procLines d0 d1 (t0 :: others)).length = (rawReplyNE d0 d1 d2 t0 others).length := by
  intro others
  induction others with
  | nil => intro t0; simp [procLines, rawReplyNE, length_procLine, length_rawLine]
  | cons t1 rest ih =>
    intro t0
    simp only [procLines, rawReplyNE, List.length_append, length_procLine, length_rawLine]
    have := ih t1
    simp only [procLines, List.length_append, length_procLine] at this
    omega

/-- The layout theorem: `read_multiline_reply` on a fresh session whose
stream delivers a well-formed reply with lines `t0 :: others` (fitting
the buffer) succeeds, and the resulting `Reply` holds the shared code,
the first line's (truncated) length, and the tail region
`t0 ++ CRLF ++ processed lines`. -/
theorem read_multiline_reply_NE
    (cap : Nat) (d0 d1 d2 : Nat) (t0 : List Nat) (others : List (List Nat))
    (restInp : List (List Nat))
    (hd0 : isDigitByte d0 = true) (hd1 : isDigitByte d1 = true) (hd2 : isDigitByte d2 = true)
    (ht0 : textOk t0) (hoth : ∀ u ∈ others, textOk u)
    (hfit : (rawReplyNE d0 d1 d2 t0 others).length ≤ cap) :
    ∃ sFinal, runReply cap (rawReplyNE d0 d1 d2 t0 others :: restInp)
      = .ok ({ code := codeVal d0 d1 d2,
               message_len := t0.length % 65536,
               remaining := t0 ++ 13 :: 10 :: procLines d0 d1 others }, sFinal) := by
  have hlen6 := length_rawReplyNE d0 d1 d2 others t0
  set R := rawReplyNE d0 d1 d2 t0 others with hR
  set pad := List.replicate (cap - R.length) 0 with hpad
  -- the first `read_line` fill loads the entire reply
  have hfill0 : fill_to_atleast
      { buf := List.replicate cap 0, ustart := 0, uend := 0, input := R :: restInp } 3
      = .ok ⟨R ++ pad, 0, R.length, restInp⟩ := by
    simp only [fill_to_atleast, List.length_replicate]
    exact fill_to_atleastF_preload cap R restInp 3 hfit (by omega) (by omega)
  cases others with
  | nil =>
    -- single line: R = rawLine d0 d1 d2 32 t0
    have hconv : (⟨R ++ pad, 0, R.length, restInp⟩ : SmtpState)
        = stateAt [] (rawLine d0 d1 d2 32 t0 ++ []) pad restInp := by
      apply SmtpState_eq
      · simp [stateAt, hR, rawReplyNE]
      · rfl
      · simp [stateAt, hR, rawReplyNE]
      · rfl
    rw [hconv] at hfill0
    have hrl := read_line_from_fill _ [] t0 [] pad restInp d0 d1 d2 32
      hd0 hd1 hd2 (Or.inl rfl) ht0 hfill0
    simp only [runReply, read_multiline_reply, hrl]
    simp only [decide_eq_true_eq, if_true]
    have hbuf2 : (stateAt ([] ++ procLine d0 d1 t0) [] pad restInp).buf
        = d0 :: d1 :: lo16 t0.length :: hi16 t0.length :: (t0 ++ 13 :: 10 :: pad) := by
      simp [stateAt, procLine, List.append_assoc]
    have hus2 : (stateAt ([] ++ procLine d0 d1 t0) [] pad restInp).ustart
        = t0.length + 6 := by
      simp [stateAt, length_procLine]
    rw [hbuf2, hus2, writeBytes_two]
    have hsplit : lo16 (codeVal d0 d1 d2) :: hi16 (codeVal d0 d1 d2) ::
        lo16 t0.length :: hi16 t0.length :: (t0 ++ 13 :: 10 :: pad)
        = (lo16 (codeVal d0 d1 d2) :: hi16 (codeVal d0 d1 d2) ::
           lo16 t0.length :: hi16 t0.length :: (t0 ++ [13, 10])) ++ pad := by
      simp [List.append_assoc]
    rw [hsplit, List.take_left' (by simp <;> omega), from_buffer_cons]
    have hcode : decode16 (lo16 (codeVal d0 d1 d2)) (hi16 (codeVal d0 d1 d2))
        = codeVal d0 d1 d2 := by
      rw [decode16_lo_hi]
      exact Nat.mod_eq_of_lt (codeVal_lt hd0 hd1 hd2)
    rw [hcode, decode16_lo_hi]
    simp only [procLines]
    exact ⟨_, rfl⟩
  | cons t1 rest =>
    -- multi-line: R = rawLine d0 d1 d2 45 t0 ++ rawReplyNE d0 d1 d2 t1 rest
    have hconv : (⟨R ++ pad, 0, R.length, restInp⟩ : SmtpState)
        = stateAt [] (rawLine d0 d1 d2 45 t0 ++ rawReplyNE d0 d1 d2 t1 rest) pad restInp := by
      apply SmtpState_eq
      · simp [stateAt, hR, rawReplyNE]
      · rfl
      · simp [stateAt, hR, rawReplyNE]
      · rfl
    rw [hconv] at hfill0
    have hrl := read_line_from_fill _ [] t0 (rawReplyNE d0 d1 d2 t1 rest) pad restInp d0 d1 d2 45
      hd0 hd1 hd2 (Or.inr rfl) ht0 hfill0
    simp only [runReply, read_multiline_reply, hrl]
    simp only [decide_eq_true_eq, if_false]
    have hfuel : rest.length + 1
        ≤ (stateAt ([] ++ procLine d0 d1 t0) (rawReplyNE d0 d1 d2 t1 rest) pad restInp).buf.length
          + 1 := by
      have h6 := length_rawReplyNE d0 d1 d2 rest t1
      simp [stateAt, List.length_append]
      omega
    rw [read_multiline_loop_NE rest t1 _ ([] ++ procLine d0 d1 t0) pad restInp d0 d1 d2
      hd0 hd1 hd2 (hoth t1 (by simp)) (fun u hu => hoth u (by simp [hu])) hfuel]
    simp only [if_neg (show ¬ (45 = 32) by omega)]
    have hbuf2 : (stateAt (([] ++ procLine d0 d1 t0) ++ procLines d0 d1 (t1 :: rest)) [] pad
        restInp).buf
        = d0 :: d1 :: lo16 t0.length :: hi16 t0.length ::
          (t0 ++ 13 :: 10 :: (procLines d0 d1 (t1 :: rest) ++ pad)) := by
      simp [stateAt, procLine, List.append_assoc]
    have hus2 : (stateAt (([] ++ procLine d0 d1 t0) ++ procLines d0 d1 (t1 :: rest)) [] pad
        restInp).ustart
        = t0.length + 6 + (procLines d0 d1 (t1 :: rest)).length := by
      simp [stateAt, length_procLine, List.length_append] <;> omega
    rw [hbuf2, hus2, writeBytes_two]
    have hsplit : lo16 (codeVal d0 d1 d2) :: hi16 (codeVal d0 d1 d2) ::
        lo16 t0.length :: hi16 t0.length ::
        (t0 ++ 13 :: 10 :: (procLines d0 d1 (t1 :: rest) ++ pad))
        = (lo16 (codeVal d0 d1 d2) :: hi16 (codeVal d0 d1 d2) ::
           lo16 t0.length :: hi16 t0.length ::
           (t0 ++ 13 :: 10 :: procLines d0 d1 (t1 :: rest))) ++ pad := by
      simp [List.append_assoc]
    rw [hsplit, List.take_left' (by simp [List.length_append]; omega), from_buffer_cons]
    have hcode : decode16 (lo16 (codeVal d0 d1 d2)) (hi16 (codeVal d0 d1 d2))
        = codeVal d0 d1 d2 := by
      rw [decode16_lo_hi]
      exact Nat.mod_eq_of_lt (codeVal_lt hd0 hd1 hd2)
    rw [hcode, decode16_lo_hi]
    exact ⟨_, rfl⟩

/-! ## Supporting lemmas: iterating the parsed reply -/

theorem length_procLines_ge (d0 d1 : Nat) :
    ∀ ts : List (List Nat), ts.length ≤ (procLines d0 d1 ts).length := by
  intro ts
  induction ts with
  | nil => simp [procLines]
  | cons u us ih =>
    simp only [procLines, List.length_append, List.length_cons, length_procLine]
    omega

theorem replyLinesF_proc (d0 d1 : Nat) :
    ∀ (ts : List (List Nat)) (t : List Nat) (fuel : Nat),
    (∀ u ∈ ts, u.length < 65536) →
    ts.length + 1 ≤ fuel →
    replyLinesF fuel t.length (t ++ 13 :: 10 :: procLines d0 d1 ts) = t :: ts := by
  intro ts
  induction ts with
  | nil =>
    intro t fuel _ hfuel
    cases fuel with
    | zero => omega
    | succ f =>
      simp only [replyLinesF, procLines]
      rw [if_neg (by simp), List.take_left, List.drop_left]
      simp
  | cons u us ih =>
    intro t fuel hus hfuel
    cases fuel with
    | zero => simp at hfuel
    | succ f =>
      simp only [replyLinesF]
      rw [if_neg (by simp), List.take_left, List.drop_left]
      have hform : (13 : Nat) :: 10 :: procLines d0 d1 (u :: us)
          = 13 :: 10 :: d0 :: d1 :: lo16 u.length :: hi16 u.length ::
            (u ++ 13 :: 10 :: procLines d0 d1 us) := by
        simp [procLines, procLine, List.append_assoc]
      rw [hform]
      rw [if_neg (by simp [List.length_append] <;> omega)]
      have hgd : decode16 ((13 :: 10 :: d0 :: d1 :: lo16 u.length :: hi16 u.length ::
            (u ++ 13 :: 10 :: procLines d0 d1 us)).getD 4 0)
          ((13 :: 10 :: d0 :: d1 :: lo16 u.length :: hi16 u.length ::
            (u ++ 13 :: 10 :: procLines d0 d1 us)).getD 5 0) = u.length := by
        show decode16 (lo16 u.length) (hi16 u.length) = u.length
        rw [decode16_lo_hi]
        exact Nat.mod_eq_of_lt (hus u (by simp))
      rw [hgd]
      have hdrop : (13 :: 10 :: d0 :: d1 :: lo16 u.length :: hi16 u.length ::
          (u ++ 13 :: 10 :: procLines d0 d1 us)).drop 6
          = u ++ 13 :: 10 :: procLines d0 d1 us := rfl
      rw [hdrop, ih u f (fun v hv => hus v (by simp [hv])) (by simp at hfuel ⊢; omega)]

/-- Rust's `Reply::replies()` over the region built by `read_multiline_reply`
marks `is_last = false` on every line: the region keeps the final CRLF,
so even the last line's text ends exactly 2 bytes before the region end
and `end - my_end < 2` fails. -/
theorem repliesF_proc (d0 d1 c : Nat) :
    ∀ (ts : List (List Nat)) (t : List Nat) (fuel off total : Nat),
    (∀ u ∈ ts, u.length < 65536) →
    ts.length + 1 ≤ fuel →
    total = off + (t ++ 13 :: 10 :: procLines d0 d1 ts).length →
    repliesF fuel c t.length (t ++ 13 :: 10 :: procLines d0 d1 ts) off total
      = (t :: ts).map (fun u => { code := c, is_last := false, message := u }) := by
  intro ts
  induction ts with
  | nil =>
    intro t fuel off total _ hfuel htotal
    cases fuel with
    | zero => omega
    | succ f =>
      simp only [repliesF, procLines] at htotal ⊢
      rw [if_neg (by simp)]
      simp only [List.take_left, List.drop_left]
      have hlast : decide (total - (off + t.length) < 2) = false := by
        simp only [List.length_append, List.length_cons] at htotal
        simp only [decide_eq_false_iff_not]
        omega
      simp [hlast]
  | cons u us ih =>
    intro t fuel off total hus hfuel htotal
    cases fuel with
    | zero => simp at hfuel
    | succ f =>
      have hform : (13 : Nat) :: 10 :: procLines d0 d1 (u :: us)
          = 13 :: 10 :: d0 :: d1 :: lo16 u.length :: hi16 u.length ::
            (u ++ 13 :: 10 :: procLines d0 d1 us) := by
        simp [procLines, procLine, List.append_assoc]
      simp only [repliesF]
      rw [if_neg (by simp)]
      simp only [List.take_left, List.drop_left]
      rw [hform]
      rw [if_neg (by simp [List.length_append] <;> omega)]
      have hgd : decode16 ((13 :: 10 :: d0 :: d1 :: lo16 u.length :: hi16 u.length ::
            (u ++ 13 :: 10 :: procLines d0 d1 us)).getD 4 0)
          ((13 :: 10 :: d0 :: d1 :: lo16 u.length :: hi16 u.length ::
            (u ++ 13 :: 10 :: procLines d0 d1 us)).getD 5 0) = u.length := by
        show decode16 (lo16 u.length) (hi16 u.length) = u.length
        rw [decode16_lo_hi]
        exact Nat.mod_eq_of_lt (hus u (by simp))
      rw [hgd]
      have hdrop : (13 :: 10 :: d0 :: d1 :: lo16 u.length :: hi16 u.length ::
          (u ++ 13 :: 10 :: procLines d0 d1 us)).drop 6
          = u ++ 13 :: 10 :: procLines d0 d1 us := rfl
      rw [hdrop]
      have hnotlast : decide (total - (off + t.length) < 2) = false := by
        rw [hform] at htotal
        simp only [List.length_append, List.length_cons] at htotal
        simp only [decide_eq_false_iff_not]
        omega
      rw [ih u f (off + t.length + 6) total (fun v hv => hus v (by simp [hv]))
        (by simp at hfuel ⊢; omega)
        (by rw [hform] at htotal
            simp only [List.length_append, List.length_cons] at htotal ⊢
            omega)]
      simp [hnotlast]

/-- First step of the `Reply` iterator when the stored length is 0 and
at least 6 bytes remain: it yields an empty line and continues. -/
theorem replyLinesF_zero_head (f a : Nat) (as : List Nat) (hlen : 6 ≤ (a :: as).length) :
    replyLinesF (f + 1) 0 (a :: as)
      = [] :: replyLinesF f (decode16 ((a :: as).getD 4 0) ((a :: as).getD 5 0))
          ((a :: as).drop 6) := by
  simp only [replyLinesF]
  rw [if_neg (by simp)]
  simp only [List.take_zero, List.drop_zero]
  rw [if_neg (by omega)]

/-- A `Reply` whose stored length is 0 but whose tail region holds at
least 6 bytes cannot iterate to a single non-empty line: its first
produced line is empty. -/
theorem lines_ne_single_of_zero_len (r : ReplyM) (t : List Nat)
    (hml : r.message_len = 0) (hlen : 6 ≤ r.remaining.length)
    (ht : t ≠ []) : r.lines ≠ [t] := by
  cases hrem : r.remaining with
  | nil => rw [hrem] at hlen; simp at hlen
  | cons a as =>
    rw [hrem] at hlen
    simp only [ReplyM.lines, hml, hrem]
    rw [replyLinesF_zero_head _ _ _ hlen]
    intro hcontra
    exact ht ((List.cons_eq_cons.mp hcontra).1).symm

theorem isUtf8_of_ascii : ∀ l : List Nat, (∀ b ∈ l, b < 128) → isUtf8 l = true := by
  intro l
  induction l with
  | nil => intro _; rfl
  | cons b rest ih =>
    intro h
    simp only [isUtf8, isUtf8Go]
    rw [if_pos (h b (by simp))]
    exact ih (fun c hc => h c (by simp [hc]))

theorem isUtf8_ascii_replicate (n b : Nat) (hb : b < 128) :
    isUtf8 (List.replicate n b) = true :=
  isUtf8_of_ascii _ (fun c hc => by rw [List.eq_of_mem_replicate hc]; exact hb)

/-! ## Claim C2 -/

/-- C2 (amended): for every well-formed SMTP reply byte sequence with
lines `t0 :: others` (each line `DDD[SP|-]text\r\n`, same code on all
lines, dash on all but the last, CR/LF-free UTF-8 texts, fitting the
buffer) **whose line texts are each shorter than 65536 bytes**, running
`read_multiline_reply` and iterating `Reply::lines()` yields exactly the
text portions of the lines, in order, byte-for-byte, despite the
in-place overwriting of terminators with length prefixes. -/
theorem c2_lines_roundtrip
    (cap d0 d1 d2 : Nat) (t0 : List Nat) (others : List (List Nat)) (restInp : List (List Nat))
    (hd0 : isDigitByte d0 = true) (hd1 : isDigitByte d1 = true) (hd2 : isDigitByte d2 = true)
    (ht0 : textOk t0) (hoth : ∀ u ∈ others, textOk u)
    (hlen0 : t0.length < 65536) (hlens : ∀ u ∈ others, u.length < 65536)
    (hfit : (rawReplyNE d0 d1 d2 t0 others).length ≤ cap) :
    linesOfResult (runReply cap (rawReplyNE d0 d1 d2 t0 others :: restInp))
      = some (t0 :: others) := by
  obtain ⟨sF, hrun⟩ :=
    read_multiline_reply_NE cap d0 d1 d2 t0 others restInp hd0 hd1 hd2 ht0 hoth hfit
  rw [hrun]
  simp only [linesOfResult, ReplyM.lines]
  rw [Nat.mod_eq_of_lt hlen0]
  have hfuel : others.length + 1 ≤ (t0 ++ 13 :: 10 :: procLines d0 d1 others).length + 1 := by
    have hge := length_procLines_ge d0 d1 others
    simp only [List.length_append, List.length_cons]
    omega
  rw [replyLinesF_proc d0 d1 others t0 _ hlens hfuel]

/-- Witness for C2: the two-line reply `250-mail.example.com\r\n250 OK\r\n`
round-trips to its two texts. -/
theorem c2_lines_roundtrip_witness :
    linesOfResult (runReply 64
        [rawReplyNE 50 53 48 (strBytes "mail.example.com") [strBytes "OK"]])
      = some [strBytes "mail.example.com", strBytes "OK"] :=
  c2_lines_roundtrip 64 50 53 48 (strBytes "mail.example.com") [strBytes "OK"] []
    (by decide) (by decide) (by decide) (by decide) (by decide) (by decide) (by decide)
    (by decide)

theorem lenRepApp : (List.replicate 65536 (65 : Nat) ++ 13 :: 10 :: procLines 50 53 []).length = 65538 := by
  rw [List.length_append, List.length_replicate]
  rfl

/-- C2 counterexample: the claim as stated fails for a 65536-byte text
line in a large enough buffer — the length prefix is stored as a `u16`
(`len as u16` truncates in Rust), so `Reply::lines()` does not return
the original text.  Here the single line `250 ` + 65536 × `A` + `\r\n`
fits a 65542-byte buffer and is read successfully, but iterating the
parsed reply yields an empty first line instead of the 65536-byte
text. -/
theorem c2_counterexample :
    linesOfResult (runReply 65542 [rawReplyNE 50 53 48 (List.replicate 65536 65) []])
      ≠ some [List.replicate 65536 65] := by
  have hnotmem : ∀ c : Nat, c ≠ 65 → c ∉ List.replicate 65536 (65 : Nat) := by
    intro c hc hmem
    exact hc (List.eq_of_mem_replicate hmem)
  have htext : textOk (List.replicate 65536 65) :=
    ⟨hnotmem 13 (by omega), hnotmem 10 (by omega), isUtf8_ascii_replicate _ _ (by omega)⟩
  obtain ⟨sF, hrun⟩ := read_multiline_reply_NE 65542 50 53 48 (List.replicate 65536 65) [] []
    (by decide) (by decide) (by decide) htext (by simp)
    (by simp only [rawReplyNE, length_rawLine, List.length_replicate]; omega)
  rw [hrun]
  simp only [linesOfResult]
  intro hcontra
  rw [Option.some_inj] at hcontra
  revert hcontra
  set r0 : ReplyM :=
    ⟨codeVal 50 53 48, (List.replicate 65536 65).length % 65536,
     List.replicate 65536 65 ++ 13 :: 10 :: procLines 50 53 []⟩ with hr0
  have hml : r0.message_len = 0 := by
    rw [hr0]
    rw [List.length_replicate]
  have hrem : r0.remaining = List.replicate 65536 65 ++ 13 :: 10 :: procLines 50 53 [] := by
    rw [hr0]
  have hlen : 6 ≤ r0.remaining.length := by
    have hL : r0.remaining.length = 65538 := by
      rw [hrem]
      exact lenRepApp
    rw [hL]
    omega
  have hne : List.replicate 65536 (65 : Nat) ≠ [] := by
    intro h
    have hl := congrArg List.length h
    simp only [List.length_replicate, List.length_nil] at hl
    omega
  exact lines_ne_single_of_zero_len r0 (List.replicate 65536 65) hml hlen hne

/-! ## Claim C1 -/

/-- C1 (evaluation at the failing input): `Reply::replies()` on replies
actually built by `read_multiline_reply` marks **no** line as last —
the parsed region ends with the final CRLF, so the last line's text ends
exactly 2 bytes before the region end and `end - my_end < 2` is false.
Shown on the single-line reply `250 OK\r\n` and on the two-line reply
`250-A\r\n250 B\r\n`. -/
theorem c1_replies_no_line_marked_last :
    repliesOfResult (runReply 32 [strBytes "250 OK\r\n"])
      = some [{ code := 250, is_last := false, message := strBytes "OK" }]
    ∧ repliesOfResult (runReply 32 [strBytes "250-A\r\n250 B\r\n"])
      = some [{ code := 250, is_last := false, message := strBytes "A" },
              { code := 250, is_last := false, message := strBytes "B" }] := by
  constructor
  · decide
  · decide


/-! ## Claim C5 -/

/-- C5 (amended): when the session buffer is completely full
(`uend = buf.length`) before a CRLF terminator has been found in the
unprocessed region, the read loop fails with
`MalformedError::UnexpectedEof`, not `ProtocolError::LineTooLong`:
`fill_buffer` receives a zero-length free slice, every `read` into it
returns 0 bytes, and 0 bytes read is mapped to `UnexpectedEof`.
`LineTooLong` is never constructed anywhere in `smtp.rs`. -/
theorem c5_full_buffer_unexpected_eof (fuel : Nat) (s : SmtpState)
    (hfull : s.uend = s.buf.length)
    (hscan : scanTerminator (region s) = Except.ok none) :
    consume_until_newlineF (fuel + 1) s
      = .error (.malformedError .unexpectedEof) := by
  have hfb : fill_buffer s = .error (.malformedError .unexpectedEof) := by
    cases hs : s.input with
    | nil => simp only [fill_buffer, hs]
    | cons chunk rest =>
      have hmin : min chunk.length (s.buf.length - s.uend) = 0 := by
        omega
      simp only [fill_buffer, hs, hmin, if_pos rfl, if_true]
  simp only [consume_until_newlineF, buffer_contains_terminator, hscan, hfb]

/-- Witness for C5: a session whose 8-byte buffer is full with
`220 welc` (no CRLF yet) while the rest of the line is still queued on
the stream; the read fails with `UnexpectedEof`. -/
theorem c5_full_buffer_unexpected_eof_witness :
    c5state.uend = c5state.buf.length ∧
    scanTerminator (region c5state) = Except.ok none ∧
    consume_until_newlineF 6 c5state
      = .error (.malformedError .unexpectedEof) :=
  ⟨by decide, by decide,
    c5_full_buffer_unexpected_eof 5 c5state (by decide) (by decide)⟩

/-- C5 counterexample: reading the reply `220 welcome!\r\n` through an
8-byte buffer exhausts the buffer before any CRLF arrives, and the
session returns `MalformedError::UnexpectedEof` — not
`ProtocolError::LineTooLong` as the claim states. -/
theorem c5_counterexample :
    runReply 8 [strBytes "220 welcome!\r\n"]
      = .error (.malformedError .unexpectedEof) ∧
    runReply 8 [strBytes "220 welcome!\r\n"]
      ≠ .error (.protocolError .lineTooLong) := by
  decide


/-! ## Supporting lemmas: error classification -/

/-- Rust's `fill_buffer` can only fail with `UnexpectedEof`. -/
theorem fill_buffer_error_eof {s : SmtpState} {e : SmtpErr}
    (h : fill_buffer s = .error e) : e = .malformedError .unexpectedEof := by
  unfold fill_buffer at h
  split at h
  · exact ((Except.error.inj h)).symm
  · dsimp only at h
    split at h
    · exact ((Except.error.inj h)).symm
    · simp at h

/-- Rust's `fill_to_atleast` can only fail with `UnexpectedEof`. -/
theorem fill_to_atleastF_error_eof (fuel : Nat) :
    ∀ (s : SmtpState) (n : Nat) (e : SmtpErr),
      fill_to_atleastF fuel s n = .error e →
      e = .malformedError .unexpectedEof := by
  induction fuel with
  | zero =>
    intro s n e h
    simp only [fill_to_atleastF, Except.error.injEq] at h
    exact h.symm
  | succ fuel ih =>
    intro s n e h
    unfold fill_to_atleastF at h
    split at h
    · split at h
      next e1 heq =>
        rw [← Except.error.inj h]
        exact fill_buffer_error_eof heq
      next s1 heq => exact ih s1 n e h
    · simp at h

/-- Rust's `consume` can only fail with `UnexpectedEof`. -/
theorem consume_error_eof {s : SmtpState} {n : Nat} {e : SmtpErr}
    (h : consume s n = .error e) : e = .malformedError .unexpectedEof := by
  unfold consume at h
  split at h
  next e1 heq =>
    rw [← Except.error.inj h]
    exact fill_to_atleastF_error_eof (s.buf.length + 1) s n e1 heq
  next s1 heq => simp at h

/-- The terminator scan can only fail with `InvalidLineTermination`. -/
theorem scanTerminator_error_ilt :
    ∀ (l : List Nat) (e : SmtpErr), scanTerminator l = .error e →
      e = .malformedError .invalidLineTermination := by
  intro l
  induction l with
  | nil =>
    intro e h
    simp [scanTerminator] at h
  | cons c rest ih =>
    intro e h
    unfold scanTerminator at h
    split at h
    · split at h
      · simp at h
      · split at h
        · simp at h
        · exact ((Except.error.inj h)).symm
    · split at h
      · exact ((Except.error.inj h)).symm
      · split at h
        next e1 heq =>
          rw [← Except.error.inj h]
          exact ih e1 heq
        next heq => simp at h
        next idx heq => simp at h

/-- Rust's `buffer_contains_terminator` can only fail with
`InvalidLineTermination`. -/
theorem buffer_contains_terminator_error_ilt {s : SmtpState} {e : SmtpErr}
    (h : buffer_contains_terminator s = .error e) :
    e = .malformedError .invalidLineTermination := by
  unfold buffer_contains_terminator at h
  split at h
  next e1 heq =>
    rw [← Except.error.inj h]
    exact scanTerminator_error_ilt _ e1 heq
  next heq => simp at h
  next p heq => simp at h

/-- Rust's `consume_until_newline` can only fail with `UnexpectedEof` or
`InvalidLineTermination` — in particular never with `NoCode`. -/
theorem consume_until_newlineF_error_cases (fuel : Nat) :
    ∀ (s : SmtpState) (e : SmtpErr),
      consume_until_newlineF fuel s = .error e →
      e = .malformedError .unexpectedEof ∨
      e = .malformedError .invalidLineTermination := by
  induction fuel with
  | zero =>
    intro s e h
    simp only [consume_until_newlineF, Except.error.injEq] at h
    exact Or.inl h.symm
  | succ fuel ih =>
    intro s e h
    unfold consume_until_newlineF at h
    split at h
    next e1 heq =>
      rw [← Except.error.inj h]
      exact Or.inr (buffer_contains_terminator_error_ilt heq)
    next mstart len s1 heq => simp at h
    next s1 heq =>
      split at h
      next e1 heq2 =>
        rw [← Except.error.inj h]
        exact Or.inl (fill_buffer_error_eof heq2)
      next s2 heq2 => exact ih s2 e h


/-- If the three consumed code bytes do parse (`parseCode3` succeeds),
`read_line` never returns `NoCode`, and on success the parsed code is the
one `parseCode3` produced. -/
theorem c6_key (s s1 : SmtpState) (a b c : Nat) (code : Nat)
    (hcons : consume s 3 = .ok ([a, b, c], s1))
    (hpc : parseCode3 [a, b, c] = some code) :
    read_line s ≠ .error (.malformedError .noCode) ∧
    ∀ r s2, read_line s = .ok (r, s2) → r.code = code := by
  simp only [read_line, hcons, hpc]
  constructor
  · intro hbad
    split at hbad
    next e1 heq =>
      exact absurd ((Except.error.inj hbad).symm.trans (consume_error_eof heq))
        (by decide)
    next sepBytes s4 heq =>
      split at hbad
      · exact absurd (Except.error.inj hbad) (by decide)
      · split at hbad
        next e1 heq2 =>
          unfold consume_until_newline at heq2
          rcases consume_until_newlineF_error_cases _ _ _ heq2 with h1 | h1 <;>
            exact absurd ((Except.error.inj hbad).symm.trans h1) (by decide)
        next msg s3 heq2 =>
          split at hbad
          · exact Except.noConfusion hbad
          · exact absurd (Except.error.inj hbad) (by decide)
  · intro r s5 hok
    split at hok
    next e1 heq => exact Except.noConfusion hok
    next sepBytes s4 heq =>
      split at hok
      · exact Except.noConfusion hok
      · split at hok
        next e1 heq2 => exact Except.noConfusion hok
        next msg s3 heq2 =>
          split at hok
          · injection hok with h1
            injection h1 with h1 h2
            rw [← h1]
          · exact Except.noConfusion hok

/-! ## Claim C6 -/

/-- C6 (amended): assuming the three code bytes `[a, b, c]` are consumed
successfully, `read_line` fails with `MalformedError::NoCode` exactly
when they do not parse as a `u16` (`parseCode3`), and for a 3-digit
prefix the code is the decimal value and the result is never `NoCode`.
The original claim is corrected: Rust's `u16: FromStr` also accepts a
leading `+` sign, so the prefix `+DD` parses as well (see
`c6_counterexample`) — "not three ASCII digits" does not imply
`NoCode`. -/
theorem c6_read_line_nocode (s s1 : SmtpState) (a b c : Nat)
    (hcons : consume s 3 = .ok ([a, b, c], s1)) :
    (read_line s = .error (.malformedError .noCode) ↔
      parseCode3 [a, b, c] = none) ∧
    ((isDigitByte a && isDigitByte b && isDigitByte c) = true →
      parseCode3 [a, b, c] = some (codeVal a b c) ∧
      ∀ r s2, read_line s = .ok (r, s2) → r.code = codeVal a b c) := by
  have hdig : (isDigitByte a && isDigitByte b && isDigitByte c) = true →
      parseCode3 [a, b, c] = some (codeVal a b c) := by
    intro hd
    simp [parseCode3, hd, codeVal]
  constructor
  · constructor
    · intro hbad
      by_contra hne
      obtain ⟨code, hpc⟩ := Option.ne_none_iff_exists'.mp hne
      exact (c6_key s s1 a b c code hcons hpc).1 hbad
    · intro hpc
      simp only [read_line, hcons, hpc]
  · intro hd
    exact ⟨hdig hd, (c6_key s s1 a b c (codeVal a b c) hcons (hdig hd)).2⟩

/-- Witness for C6: the line `220 OK\r\n` fully loaded in the buffer;
the code bytes `220` parse, the result is not `NoCode`, and a successful
parse carries code 220. -/
theorem c6_read_line_nocode_witness :
    consume c6state 3
      = Except.ok ([50, 50, 48],
          { buf := strBytes "220 OK\r\n", ustart := 3, uend := 8,
            input := [] }) ∧
    ((read_line c6state = .error (.malformedError .noCode) ↔
        parseCode3 [50, 50, 48] = none) ∧
      ((isDigitByte 50 && isDigitByte 50 && isDigitByte 48) = true →
        parseCode3 [50, 50, 48] = some (codeVal 50 50 48) ∧
        ∀ r s2, read_line c6state = .ok (r, s2) →
          r.code = codeVal 50 50 48)) :=
  ⟨by decide,
    c6_read_line_nocode c6state
      { buf := strBytes "220 OK\r\n", ustart := 3, uend := 8, input := [] }
      50 50 48 (by decide)⟩

/-- C6 counterexample: the line `+20 Hi\r\n` begins with `+`, which is
not an ASCII digit, yet `read_line` succeeds with code 20 (Rust's `u16`
parser accepts a leading plus sign) instead of failing with `NoCode`. -/
theorem c6_counterexample :
    isDigitByte 43 = false ∧
    lineCodeOfResult (read_line c6plus) = some 20 := by decide

/-! ## Supporting definitions and lemmas: dot-stuffing (Claim C3) -/

/-- A found `\r\n.` window lies inside the list. -/
theorem find_crlf_dot_bound :
    ∀ (l : List Nat) (i : Nat), find_crlf_dot l = some i →
      i + 3 ≤ l.length ∧ ∃ rest, l.drop i = 13 :: 10 :: 46 :: rest := by
  intro l
  induction l with
  | nil => intro i h; simp [find_crlf_dot] at h
  | cons b l ih =>
    intro i h
    match l with
    | [] => simp [find_crlf_dot] at h
    | [c] => simp [find_crlf_dot] at h
    | c :: d :: rest =>
      rw [find_crlf_dot] at h
      split at h
      · have h0 := Option.some.inj h
        subst h0
        exact ⟨by simp, rest, by simp_all⟩
      · match hi : find_crlf_dot (c :: d :: rest) with
        | none => rw [hi] at h; simp at h
        | some i0 =>
          rw [hi] at h
          have hii : i0 + 1 = i := by simpa using h
          subst hii
          obtain ⟨hlen, rest2, hdrop⟩ := ih i0 hi
          refine ⟨by simp only [List.length_cons] at hlen ⊢; omega, rest2, ?_⟩
          simpa using hdrop

/-- Replacing everything after the first `\r\n.` window's `\r\n` by
`.` followed by anything keeps the window position. -/
theorem find_crlf_dot_extend :
    ∀ (l : List Nat) (i : Nat) (tail : List Nat), find_crlf_dot l = some i →
      find_crlf_dot (l.take (i + 2) ++ 46 :: tail) = some i := by
  intro l
  induction l with
  | nil => intro i tail h; simp [find_crlf_dot] at h
  | cons b l ih =>
    intro i tail h
    match l with
    | [] => simp [find_crlf_dot] at h
    | [c] => simp [find_crlf_dot] at h
    | c :: d :: rest =>
      rw [find_crlf_dot] at h
      split at h
      next hcond =>
        have h0 := Option.some.inj h
        subst h0
        obtain ⟨h1, h2, h3⟩ := hcond
        subst h1; subst h2; subst h3
        show find_crlf_dot (13 :: 10 :: 46 :: tail) = some 0
        rw [show find_crlf_dot (13 :: 10 :: 46 :: tail)
              = if (13 : Nat) = 13 ∧ (10 : Nat) = 10 ∧ (46 : Nat) = 46 then some 0
                else (find_crlf_dot (10 :: 46 :: tail)).map (· + 1) from rfl]
        simp
      next hcond =>
        match hi : find_crlf_dot (c :: d :: rest) with
        | none => rw [hi] at h; simp at h
        | some i0 =>
          rw [hi] at h
          have hii : i0 + 1 = i := by simpa using h
          subst hii
          have hI := ih i0 tail hi
          have hX : (c :: d :: rest).take (i0 + 2) = c :: d :: rest.take i0 := rfl
          rw [hX, List.cons_append, List.cons_append] at hI
          have hsh : (b :: c :: d :: rest).take (i0 + 1 + 2) ++ 46 :: tail
              = b :: c :: d :: (rest.take i0 ++ 46 :: tail) := by
            rw [show i0 + 1 + 2 = (i0 + 2) + 1 from rfl, List.take_succ_cons, hX]
            simp
          rw [hsh]
          rw [show find_crlf_dot (b :: c :: d :: (rest.take i0 ++ 46 :: tail))
                = if b = 13 ∧ c = 10 ∧ d = 46 then some 0
                  else (find_crlf_dot
                    (c :: d :: (rest.take i0 ++ 46 :: tail))).map (· + 1)
              from rfl]
          rw [if_neg hcond, hI]
          rfl

/-- The prefix strictly before a first `\r\n.` window's dot holds no
window of its own. -/
theorem find_crlf_dot_take_none :
    ∀ (l : List Nat) (i : Nat), find_crlf_dot l = some i →
      find_crlf_dot (l.take (i + 2)) = none := by
  intro l
  induction l with
  | nil => intro i h; simp [find_crlf_dot] at h
  | cons b l ih =>
    intro i h
    match l with
    | [] => simp [find_crlf_dot] at h
    | [c] => simp [find_crlf_dot] at h
    | c :: d :: rest =>
      rw [find_crlf_dot] at h
      split at h
      next hcond =>
        have h0 := Option.some.inj h
        subst h0
        show find_crlf_dot [b, c] = none
        rfl
      next hcond =>
        match hi : find_crlf_dot (c :: d :: rest) with
        | none => rw [hi] at h; simp at h
        | some i0 =>
          rw [hi] at h
          have hii : i0 + 1 = i := by simpa using h
          subst hii
          have hI := ih i0 hi
          have hX : (c :: d :: rest).take (i0 + 2) = c :: d :: rest.take i0 := rfl
          rw [hX] at hI
          rw [show (b :: c :: d :: rest).take (i0 + 1 + 2)
                = b :: c :: d :: rest.take i0 from by
              rw [show i0 + 1 + 2 = (i0 + 2) + 1 from rfl, List.take_succ_cons, hX]]
          rw [show find_crlf_dot (b :: c :: d :: rest.take i0)
                = if b = 13 ∧ c = 10 ∧ d = 46 then some 0
                  else (find_crlf_dot (c :: d :: rest.take i0)).map (· + 1)
              from rfl]
          rw [if_neg hcond, hI]
          rfl

/-- Dropping the head cannot create a `\r\n.` window. -/
theorem find_crlf_dot_none_cons {a : Nat} {l : List Nat}
    (h : find_crlf_dot (a :: l) = none) : find_crlf_dot l = none := by
  match l with
  | [] => rfl
  | [c] => rfl
  | c :: d :: rest =>
    rw [find_crlf_dot] at h
    split at h
    · simp at h
    · cases hi : find_crlf_dot (c :: d :: rest) with
      | none => rfl
      | some i0 => rw [hi] at h; simp at h

/-- A list with no `\r\n.` window passes the doubled-dot check. -/
theorem crlfDotDoubled_of_none :
    ∀ l : List Nat, find_crlf_dot l = none → crlfDotDoubled l = true := by
  intro l
  induction l with
  | nil => intro h; rfl
  | cons b l ih =>
    intro h
    match l with
    | [] => rfl
    | [c] => rfl
    | c :: d :: rest =>
      rw [find_crlf_dot] at h
      rw [show crlfDotDoubled (b :: c :: d :: rest)
            = (if b = 13 ∧ c = 10 ∧ d = 46 then
                headIs46 rest && crlfDotDoubled (c :: d :: rest)
              else crlfDotDoubled (c :: d :: rest)) from rfl]
      split at h
      · simp at h
      next hcond =>
        rw [if_neg hcond]
        cases hi : find_crlf_dot (c :: d :: rest) with
        | none => exact ih hi
        | some i0 => rw [hi] at h; simp at h

/-- Prepending a byte other than `\r` preserves the doubled-dot check. -/
theorem crlfDotDoubled_cons {a : Nat} {l : List Nat} (ha : a ≠ 13)
    (h : crlfDotDoubled l = true) : crlfDotDoubled (a :: l) = true := by
  match l with
  | [] => rfl
  | [c] => rfl
  | c :: d :: rest =>
    rw [show crlfDotDoubled (a :: c :: d :: rest)
          = (if a = 13 ∧ c = 10 ∧ d = 46 then
              headIs46 rest && crlfDotDoubled (c :: d :: rest)
            else crlfDotDoubled (c :: d :: rest)) from rfl]
    rw [if_neg (by exact fun hc => ha hc.1)]
    exact h

/-- The doubled-dot check survives prepending a window-free prefix when
the seam reads `..`. -/
theorem crlfDotDoubled_append :
    ∀ (T R : List Nat), find_crlf_dot T = none →
      crlfDotDoubled (46 :: 46 :: R) = true →
      crlfDotDoubled (T ++ 46 :: 46 :: R) = true := by
  intro T
  induction T with
  | nil => intro R _ h2; exact h2
  | cons a T ih =>
    intro R h1 h2
    have hT : find_crlf_dot T = none := find_crlf_dot_none_cons h1
    match T with
    | [] =>
      rw [show ([a] ++ 46 :: 46 :: R : List Nat) = a :: 46 :: 46 :: R from rfl]
      rw [show crlfDotDoubled (a :: 46 :: 46 :: R)
            = (if a = 13 ∧ (46 : Nat) = 10 ∧ (46 : Nat) = 46 then
                headIs46 R && crlfDotDoubled (46 :: 46 :: R)
              else crlfDotDoubled (46 :: 46 :: R)) from rfl]
      rw [if_neg (by omega)]
      exact h2
    | [b] =>
      rw [show ([a, b] ++ 46 :: 46 :: R : List Nat) = a :: b :: 46 :: 46 :: R
            from rfl]
      rw [show crlfDotDoubled (a :: b :: 46 :: 46 :: R)
            = (if a = 13 ∧ b = 10 ∧ (46 : Nat) = 46 then
                headIs46 (46 :: R) && crlfDotDoubled (b :: 46 :: 46 :: R)
              else crlfDotDoubled (b :: 46 :: 46 :: R)) from rfl]
      have hbase : crlfDotDoubled (b :: 46 :: 46 :: R) = true := by
        have := ih R hT h2
        rw [show ([b] ++ 46 :: 46 :: R : List Nat) = b :: 46 :: 46 :: R
              from rfl] at this
        exact this
      split
      · rw [show headIs46 (46 :: R) = true from rfl, Bool.true_and]
        exact hbase
      · exact hbase
    | b :: c :: T2 =>
      simp only [List.cons_append]
      rw [show crlfDotDoubled (a :: b :: c :: (T2 ++ 46 :: 46 :: R))
            = (if a = 13 ∧ b = 10 ∧ c = 46 then
                headIs46 (T2 ++ 46 :: 46 :: R)
                  && crlfDotDoubled (b :: c :: (T2 ++ 46 :: 46 :: R))
              else crlfDotDoubled (b :: c :: (T2 ++ 46 :: 46 :: R))) from rfl]
      rw [if_neg ?hc]
      case hc =>
        intro hcond
        rw [find_crlf_dot, if_pos hcond] at h1
        simp at h1
      have := ih R hT h2
      simp only [List.cons_append] at this
      exact this

/-- The stuffing loop preserves the first byte. -/
theorem stuffLoopF_cons (f a : Nat) (r : List Nat) :
    ∃ t, stuffLoopF (f + 1) (a :: r) = a :: t := by
  rw [stuffLoopF]
  cases hfind : find_crlf_dot (a :: r) with
  | none => exact ⟨r, rfl⟩
  | some i =>
    refine ⟨r.take (i + 1) ++ [46] ++ stuffLoopF f ((a :: r).drop (i + 2)), ?_⟩
    show (a :: r).take (i + 2) ++ [46] ++ stuffLoopF f ((a :: r).drop (i + 2))
      = a :: (r.take (i + 1) ++ [46] ++ stuffLoopF f ((a :: r).drop (i + 2)))
    rw [show (a :: r).take (i + 2) = a :: r.take (i + 1) from rfl]
    simp

/-- The stuffing loop never shrinks its input. -/
theorem stuffLoopF_length_ge :
    ∀ (f : Nat) (body : List Nat), body.length < f →
      body.length ≤ (stuffLoopF f body).length := by
  intro f
  induction f with
  | zero => intro body h; omega
  | succ f ih =>
    intro body h
    cases hfind : find_crlf_dot body with
    | none => simp [stuffLoopF, hfind]
    | some i =>
      obtain ⟨hbound, rest2, hdrop⟩ := find_crlf_dot_bound body i hfind
      have h2 := ih (body.drop (i + 2))
        (by simp only [List.length_drop]; omega)
      simp only [stuffLoopF, hfind, List.length_append, List.length_take,
        List.length_cons, List.length_drop] at *
      omega

/-- Un-stuffing inverts the stuffing loop. -/
theorem unstuff_stuff_loop :
    ∀ (f : Nat) (body : List Nat) (u : Nat), body.length < f →
      body.length < u → unstuffLoopF u (stuffLoopF f body) = body := by
  intro f
  induction f with
  | zero => intro body u hf hu; omega
  | succ f ih =>
    intro body u hf hu
    cases u with
    | zero => omega
    | succ u =>
      cases hfind : find_crlf_dot body with
      | none => simp only [stuffLoopF, hfind, unstuffLoopF]
      | some i =>
        obtain ⟨hbound, rest2, hdrop⟩ := find_crlf_dot_bound body i hfind
        have hfind2 : find_crlf_dot
            (body.take (i + 2) ++ 46 :: stuffLoopF f (body.drop (i + 2)))
              = some i :=
          find_crlf_dot_extend body i _ hfind
        have hTlen : (body.take (i + 2)).length = i + 2 := by
          rw [List.length_take]; omega
        simp only [stuffLoopF, hfind]
        rw [show body.take (i + 2) ++ [46] ++ stuffLoopF f (body.drop (i + 2))
              = body.take (i + 2) ++ 46 :: stuffLoopF f (body.drop (i + 2))
            from by simp]
        simp only [unstuffLoopF, hfind2]
        rw [List.take_left' hTlen]
        have hdrop3 : (body.take (i + 2)
            ++ 46 :: stuffLoopF f (body.drop (i + 2))).drop (i + 3)
              = stuffLoopF f (body.drop (i + 2)) := by
          rw [show body.take (i + 2) ++ 46 :: stuffLoopF f (body.drop (i + 2))
                = (body.take (i + 2) ++ [46])
                    ++ stuffLoopF f (body.drop (i + 2)) from by simp]
          apply List.drop_left'
          simp [hTlen]
        rw [hdrop3]
        rw [ih (body.drop (i + 2)) u
          (by simp only [List.length_drop]; omega)
          (by simp only [List.length_drop]; omega)]
        exact List.take_append_drop _ _

/-- The stuffing loop's output passes the doubled-dot check. -/
theorem crlfDotDoubled_stuffLoopF :
    ∀ (f : Nat) (body : List Nat), body.length < f →
      crlfDotDoubled (stuffLoopF f body) = true := by
  intro f
  induction f with
  | zero => intro body hf; omega
  | succ f ih =>
    intro body hf
    cases hfind : find_crlf_dot body with
    | none =>
      simp only [stuffLoopF, hfind]
      exact crlfDotDoubled_of_none body hfind
    | some i =>
      obtain ⟨hbound, rest2, hdrop⟩ := find_crlf_dot_bound body i hfind
      have hdrop2 : body.drop (i + 2) = 46 :: rest2 := by
        have hdd : body.drop (i + 2) = (body.drop i).drop 2 := by
          rw [List.drop_drop]
        rw [hdd, hdrop]
        rfl
      obtain ⟨t, hS⟩ : ∃ t, stuffLoopF f (body.drop (i + 2)) = 46 :: t := by
        cases f with
        | zero => omega
        | succ f2 =>
          rw [hdrop2]
          exact stuffLoopF_cons f2 46 rest2
      have hIH : crlfDotDoubled (stuffLoopF f (body.drop (i + 2))) = true :=
        ih _ (by simp only [List.length_drop]; omega)
      rw [hS] at hIH
      have h46 : crlfDotDoubled (46 :: 46 :: t) = true :=
        crlfDotDoubled_cons (by omega) hIH
      have hfin := crlfDotDoubled_append (body.take (i + 2)) t
        (find_crlf_dot_take_none body i hfind) h46
      simp only [stuffLoopF, hfind, hS]
      rw [show body.take (i + 2) ++ [46] ++ 46 :: t
            = body.take (i + 2) ++ 46 :: 46 :: t from by simp]
      exact hfin

theorem dot_stuff_no46 {a : Nat} {r : List Nat} (ha : a ≠ 46) :
    dot_stuff (a :: r) = stuffLoopF ((a :: r).length + 1) (a :: r) := by
  unfold dot_stuff
  split
  next heq =>
    exact absurd ((List.cons.inj heq).1) ha
  next => rfl

theorem unstuff_no46 {a : Nat} {t : List Nat} (ha : a ≠ 46) :
    unstuff (a :: t) = unstuffLoopF ((a :: t).length + 1) (a :: t) := by
  unfold unstuff
  split
  next rest heq =>
    exact absurd ((List.cons.inj heq).1 ) ha
  next => rfl

theorem firstLineOk_no46 {a : Nat} {t : List Nat} (ha : a ≠ 46) :
    firstLineOk (a :: t) = true := by
  unfold firstLineOk
  split
  · rfl
  next heq =>
    exact absurd ((List.cons.inj heq).1) ha
  · rfl

theorem c3_parts_46 (r : List Nat) :
    unstuff (dot_stuff (46 :: r)) = 46 :: r ∧
    firstLineOk (dot_stuff (46 :: r)) = true ∧
    crlfDotDoubled (dot_stuff (46 :: r)) = true := by
  have hds : dot_stuff (46 :: r)
      = 46 :: stuffLoopF ((46 :: r).length + 1) (46 :: r) := rfl
  obtain ⟨t, hS⟩ := stuffLoopF_cons ((46 :: r).length) 46 r
  have hlen := stuffLoopF_length_ge ((46 :: r).length + 1) (46 :: r) (by omega)
  refine ⟨?_, ?_, ?_⟩
  · rw [hds]
    have hu : unstuff (46 :: stuffLoopF ((46 :: r).length + 1) (46 :: r))
        = unstuffLoopF ((stuffLoopF ((46 :: r).length + 1) (46 :: r)).length
            + 1) (stuffLoopF ((46 :: r).length + 1) (46 :: r)) := rfl
    rw [hu]
    exact unstuff_stuff_loop _ _ _ (by omega) (by omega)
  · rw [hds, hS]
    rfl
  · rw [hds]
    exact crlfDotDoubled_cons (by omega)
      (crlfDotDoubled_stuffLoopF _ _ (by omega))

/-- C3: for every message body, un-stuffing the dot-stuffed wire form
recovers the body exactly, and no line of the stuffed output begins with
a single dot: a leading dot is always doubled (`firstLineOk`) and every
`\r\n.` window is followed by a second dot (`crlfDotDoubled`); the
body `Before\r\n.\r\nAfter` is written to the stream as
`Before\r\n..\r\nAfter` followed by the `\r\n.\r\n` end-of-data
marker. -/
theorem c3_dot_stuffing :
    (∀ body : List Nat,
      unstuff (dot_stuff body) = body ∧
      firstLineOk (dot_stuff body) = true ∧
      crlfDotDoubled (dot_stuff body) = true) ∧
    bodyWire (strBytes "Before\r\n.\r\nAfter")
      = strBytes "Before\r\n..\r\nAfter\r\n.\r\n" := by
  constructor
  · intro body
    match body with
    | [] => exact ⟨rfl, rfl, rfl⟩
    | a :: r =>
      by_cases ha : a = 46
      · subst ha
        exact c3_parts_46 r
      · have hds := dot_stuff_no46 (r := r) ha
        have hlen := stuffLoopF_length_ge ((a :: r).length + 1) (a :: r)
          (by omega)
        obtain ⟨t, hS⟩ := stuffLoopF_cons ((a :: r).length) a r
        refine ⟨?_, ?_, ?_⟩
        · rw [hds, hS, unstuff_no46 ha, ← hS]
          exact unstuff_stuff_loop _ _ _ (by omega) (by omega)
        · rw [hds, hS]
          exact firstLineOk_no46 ha
        · rw [hds]
          exact crlfDotDoubled_stuffLoopF _ _ (by omega)
  · decide

/-! ## Claim C4 -/

/-- If some entry of the list contains CRLF, the check chain fails with
`InvalidHeader` carrying the name of an entry that contains CRLF. -/
theorem runChecks_error :
    ∀ l : List (Option (List Nat) × String),
      (∃ p ∈ l, optCrlf p.1 = true) →
      ∃ n v, (some v, n) ∈ l ∧ containsCrlf v = true ∧
        runChecks l = .error (.invalidHeader n) := by
  intro l
  induction l with
  | nil =>
    rintro ⟨p, hp, _⟩
    cases hp
  | cons p rest ih =>
    rintro ⟨q, hq, hcrlf⟩
    obtain ⟨v0, n0⟩ := p
    by_cases hp : optCrlf v0 = true
    · match v0, hp with
      | some v, hp =>
        refine ⟨n0, v, List.mem_cons_self _ _, by simpa [optCrlf] using hp, ?_⟩
        have hcv : containsCrlf v = true := by simpa [optCrlf] using hp
        simp [runChecks, check_header_opt, check_header, hcv]
    · rcases List.mem_cons.mp hq with rfl | hq2
      · exact absurd (by simpa using hcrlf) hp
      · obtain ⟨n, v, hmem, hc, hrun⟩ := ih ⟨q, hq2, hcrlf⟩
        refine ⟨n, v, List.mem_cons_of_mem _ hmem, hc, ?_⟩
        have hok : check_header_opt v0 n0 = .ok () := by
          cases hv0 : v0 with
          | none => rfl
          | some v1 =>
            have hcv1 : containsCrlf v1 = false := by
              rw [hv0] at hp
              simpa [optCrlf] using hp
            simp [check_header_opt, check_header, hcv1]
        simp [runChecks, hok, hrun]

/-- C4: if any supplied header value (From, Message-ID, To, Cc, Bcc,
Reply-To, Subject, In-Reply-To, References) contains the substring
`\r\n`, `send_message` returns `ProtocolError::InvalidHeader` carrying
the name of a header whose value contains CRLF, and writes zero bytes to
the stream (the guard runs before any command is sent).  The
`InvalidHeader` variant itself is modelled from the spec, as its
declaration is missing from `error.rs`. -/
theorem c4_invalid_header (s : SmtpState) (m : MessageM) (envFrom : List Nat)
    (envTo : List (List Nat))
    (h : ∃ p ∈ checksList m, optCrlf p.1 = true) :
    ∃ n v, (some v, n) ∈ checksList m ∧ containsCrlf v = true ∧
      send_message s m envFrom envTo
        = (.error (.protocolError (.invalidHeader n)), []) := by
  obtain ⟨n, v, hmem, hc, hrun⟩ := runChecks_error (checksList m) h
  refine ⟨n, v, hmem, hc, ?_⟩
  have hch : sendMessageChecks m = .error (.invalidHeader n) := hrun
  simp only [send_message, hch]

/-- Witness for C4: a message whose Subject value embeds `\r\n`;
`send_message` fails with `InvalidHeader` and writes nothing. -/
theorem c4_invalid_header_witness :
    (∃ p ∈ checksList c4msg, optCrlf p.1 = true) ∧
    ∃ n v, (some v, n) ∈ checksList c4msg ∧ containsCrlf v = true ∧
      send_message { buf := [], ustart := 0, uend := 0, input := [] } c4msg
          (strBytes "a@example.com") [strBytes "b@example.com"]
        = (.error (.protocolError (.invalidHeader n)), []) :=
  ⟨by decide,
    c4_invalid_header { buf := [], ustart := 0, uend := 0, input := [] } c4msg
      (strBytes "a@example.com") [strBytes "b@example.com"] (by decide)⟩

/-! ## Claim C8 -/

/-- C8: when the plaintext `\0 user \0 pass` fits the buffer and the
buffer's tail can hold its base64 encoding, `auth` writes to the stream
exactly `AUTH PLAIN ` followed by `base64(\0 ++ u ++ \0 ++ p)`
followed by `\r\n`. -/
theorem c8_auth_plain_wire (s : SmtpState) (u p : List Nat)
    (hcap : u.length + 2 + p.length ≤ s.buf.length)
    (hfit : (base64Encode (0 :: u ++ 0 :: p)).length
      ≤ s.buf.length - (u.length + 2 + p.length)) :
    authWire s u p
      = some (strBytes "AUTH PLAIN "
          ++ base64Encode (0 :: u ++ 0 :: p) ++ [13, 10]) := by
  have hD : (0 :: u ++ 0 :: p : List Nat).length = u.length + 2 + p.length := by
    simp only [List.cons_append, List.length_cons, List.length_append]
    omega
  have hbuf1 : writeBytes s.buf 0 (0 :: u ++ 0 :: p)
      = (0 :: u ++ 0 :: p) ++ s.buf.drop (u.length + 2 + p.length) := by
    rw [writeBytes_full _ _ (by rw [hD]; exact hcap), hD]
  unfold authWire auth
  simp only [hbuf1]
  rw [List.take_left' hD, List.drop_left' hD]
  rw [if_neg (by
    simp only [List.length_drop, not_lt]
    omega)]
  simp

/-- Witness for C8: user `u`, pass `p` in a 16-byte buffer; the wire
payload is `AUTH PLAIN AHUAcA==\r\n`. -/
theorem c8_auth_plain_wire_witness :
    (strBytes "u").length + 2 + (strBytes "p").length ≤ c8state.buf.length ∧
    (base64Encode (0 :: strBytes "u" ++ 0 :: strBytes "p")).length
      ≤ c8state.buf.length
        - ((strBytes "u").length + 2 + (strBytes "p").length) ∧
    authWire c8state (strBytes "u") (strBytes "p")
      = some (strBytes "AUTH PLAIN AHUAcA==\r\n") :=
  ⟨by decide, by decide,
    (c8_auth_plain_wire c8state (strBytes "u") (strBytes "p")
      (by decide) (by decide)).trans (by decide)⟩

/-! ## Claim C10 -/

theorem splitOnceSpace_of_not_mem :
    ∀ l : List Nat, 32 ∉ l → splitOnceSpace l = none := by
  intro l
  induction l with
  | nil => intro _; rfl
  | cons b rest ih =>
    intro h
    simp only [List.mem_cons, not_or] at h
    have hb : ¬ b = 32 := fun hb => h.1 hb.symm
    simp [splitOnceSpace, hb, ih h.2]

theorem splitOnceSpace_of_mem :
    ∀ l : List Nat, 32 ∈ l →
      ∃ q, splitOnceSpace l = some (l.takeWhile (· != 32), q) := by
  intro l
  induction l with
  | nil => intro h; cases h
  | cons b rest ih =>
    intro h
    by_cases hb : b = 32
    · subst hb
      exact ⟨rest, by simp [splitOnceSpace, List.takeWhile]⟩
    · have hrest : 32 ∈ rest := by
        cases List.mem_cons.mp h with
        | inl h2 => exact absurd h2.symm hb
        | inr h2 => exact h2
      obtain ⟨q, hq⟩ := ih hrest
      refine ⟨q, ?_⟩
      have hbne : (b != 32) = true := by simp [hb]
      simp [splitOnceSpace, hb, hq, hbne]

/-- C10: on a successful `ready()`, if the greeting's first line contains
a space then `Ready::hostname()` is the text strictly before the first
space, and if it contains no space at all then `Ready::hostname()` is
the entire first-line text — it never fails on a space-free line. -/
theorem c10_ready_hostname (s : SmtpState) (l : List Nat)
    (h : readyFirstLine s = some l) :
    (32 ∈ l → readyHostname s = some (l.takeWhile (· != 32))) ∧
    (32 ∉ l → readyHostname s = some l) := by
  cases hrm : read_multiline_reply s with
  | error e => simp [readyFirstLine, ready, hrm] at h
  | ok p =>
    obtain ⟨reply, s1⟩ := p
    simp only [readyFirstLine, ready, hrm] at h
    simp only [readyHostname, ready, hrm]
    by_cases hc : reply.code = 220
    · rw [if_neg (by simp [hc])] at h
      rw [if_neg (by simp [hc])]
      have hl : reply.current_line = l := by
        simpa [ReadyM.new] using h
      constructor
      · intro hmem
        obtain ⟨q, hq⟩ := splitOnceSpace_of_mem l hmem
        simp [ReadyM.new, hl, hq]
      · intro hmem
        have hn := splitOnceSpace_of_not_mem l hmem
        simp [ReadyM.new, hl, hn]
    · rw [if_pos (by simpa using hc)] at h
      simp at h

/-- Witness for C10: the greeting `220 mail.example.com ESMTP ready`;
the first line contains spaces and the hostname is
`mail.example.com`. -/
theorem c10_ready_hostname_witness :
    readyFirstLine c10state = some (strBytes "mail.example.com ESMTP ready") ∧
    readyHostname c10state = some (strBytes "mail.example.com") ∧
    ((32 ∈ strBytes "mail.example.com ESMTP ready" →
        readyHostname c10state
          = some ((strBytes "mail.example.com ESMTP ready").takeWhile
              (· != 32))) ∧
      (32 ∉ strBytes "mail.example.com ESMTP ready" →
        readyHostname c10state
          = some (strBytes "mail.example.com ESMTP ready"))) :=
  ⟨by decide, by decide,
    c10_ready_hostname c10state (strBytes "mail.example.com ESMTP ready")
      (by decide)⟩

/-! ## Claim C7 -/

/-- Rust's `read_line` on a loaded line whose text region contains a bare LF or
a CR followed by a non-LF byte fails with `InvalidLineTermination`. -/
theorem read_line_bad
    (s : SmtpState) (P t R pad : List Nat) (inp : List (List Nat)) (d0 d1 d2 sep c : Nat)
    (hd0 : isDigitByte d0 = true) (hd1 : isDigitByte d1 = true) (hd2 : isDigitByte d2 = true)
    (hsep : sep = 32 ∨ sep = 45)
    (ht13 : 13 ∉ t) (ht10 : 10 ∉ t)
    (hc : c = 10 ∨ (c = 13 ∧ ∃ x xs, R = x :: xs ∧ x ≠ 10))
    (hfill : fill_to_atleast s 3
      = .ok (stateAt P (d0 :: d1 :: d2 :: sep :: (t ++ c :: R)) pad inp)) :
    read_line s = .error (.malformedError .invalidLineTermination) := by
  have hstate : stateAt P (d0 :: d1 :: d2 :: sep :: (t ++ c :: R)) pad inp
      = ⟨P ++ (d0 :: d1 :: d2 :: sep :: (t ++ c :: (R ++ pad))),
         P.length, P.length + (5 + t.length + R.length), inp⟩ := by
    apply SmtpState_eq
    · simp [List.append_assoc]
    · rfl
    · simp [List.length_append]; omega
    · rfl
  rw [hstate] at hfill
  have f0 : (P ++ (d0 :: d1 :: d2 :: sep :: (t ++ c :: (R ++ pad)))).drop P.length
      = d0 :: d1 :: d2 :: sep :: (t ++ c :: (R ++ pad)) := List.drop_left P _
  have f3 : (P ++ (d0 :: d1 :: d2 :: sep :: (t ++ c :: (R ++ pad)))).drop (P.length + 3)
      = sep :: (t ++ c :: (R ++ pad)) := by
    rw [← List.drop_drop, f0]
    rfl
  have f4 : (P ++ (d0 :: d1 :: d2 :: sep :: (t ++ c :: (R ++ pad)))).drop (P.length + 4)
      = t ++ c :: (R ++ pad) := by
    rw [← List.drop_drop, f0]
    rfl
  have hc3 : consume s 3 = .ok ([d0, d1, d2],
      ⟨P ++ (d0 :: d1 :: d2 :: sep :: (t ++ c :: (R ++ pad))),
       P.length + 3, P.length + (5 + t.length + R.length), inp⟩) := by
    simp only [consume, hfill, f0]
    rfl
  have hc1 : consume ⟨P ++ (d0 :: d1 :: d2 :: sep :: (t ++ c :: (R ++ pad))),
        P.length + 3, P.length + (5 + t.length + R.length), inp⟩ 1
      = .ok ([sep],
        ⟨P ++ (d0 :: d1 :: d2 :: sep :: (t ++ c :: (R ++ pad))),
         P.length + 4, P.length + (5 + t.length + R.length), inp⟩) := by
    rw [consume_loaded _ 1 (by simp; omega)]
    simp only [f3]
    rfl
  have hregion : region ⟨P ++ (d0 :: d1 :: d2 :: sep :: (t ++ c :: (R ++ pad))),
        P.length + 4, P.length + (5 + t.length + R.length), inp⟩ = t ++ c :: R := by
    simp only [region, f4]
    have harr : t ++ c :: (R ++ pad) = (t ++ c :: R) ++ pad := by
      simp [List.append_assoc]
    rw [harr]
    exact List.take_left' (by simp [List.length_append]; omega)
  have hbct : buffer_contains_terminator
        ⟨P ++ (d0 :: d1 :: d2 :: sep :: (t ++ c :: (R ++ pad))),
         P.length + 4, P.length + (5 + t.length + R.length), inp⟩
      = .error (.malformedError .invalidLineTermination) := by
    simp only [buffer_contains_terminator, hregion,
      scanTerminator_bad t ht13 ht10 c R hc]
  have hcun : consume_until_newline
        ⟨P ++ (d0 :: d1 :: d2 :: sep :: (t ++ c :: (R ++ pad))),
         P.length + 4, P.length + (5 + t.length + R.length), inp⟩
      = .error (.malformedError .invalidLineTermination) := by
    simp only [consume_until_newline, consume_until_newlineF, hbct]
  have hsepv : (if ([sep] : List Nat) = [32] then some true
      else if ([sep] : List Nat) = [45] then some false else none)
      = some (decide (sep = 32)) := by
    rcases hsep with rfl | rfl <;> simp
  simp only [read_line, hc3, parseCode3_digits d0 d1 d2 hd0 hd1 hd2, hc1, hsepv, hcun]

theorem length_contLines_ge (d0 d1 d2 : Nat) :
    ∀ mids : List (List Nat), mids.length ≤ (contLines d0 d1 d2 mids).length := by
  intro mids
  induction mids with
  | nil => simp [contLines]
  | cons t1 rest ih =>
    simp only [contLines, List.length_append, List.length_cons, length_rawLine]
    omega

/-- The multi-line loop over well-formed continuation lines followed by a
line with a bad terminator fails with `InvalidLineTermination`. -/
theorem read_multiline_loop_bad :
    ∀ (mids : List (List Nat)) (fuel : Nat) (P pad : List Nat) (inp : List (List Nat))
      (d0 d1 d2 sep c : Nat) (t R : List Nat),
    isDigitByte d0 = true → isDigitByte d1 = true → isDigitByte d2 = true →
    (sep = 32 ∨ sep = 45) →
    (∀ u ∈ mids, textOk u) →
    13 ∉ t → 10 ∉ t →
    (c = 10 ∨ (c = 13 ∧ ∃ x xs, R = x :: xs ∧ x ≠ 10)) →
    mids.length + 1 ≤ fuel →
    read_multiline_loopF fuel (codeVal d0 d1 d2)
        (stateAt P (contLines d0 d1 d2 mids
          ++ (d0 :: d1 :: d2 :: sep :: (t ++ c :: R))) pad inp)
      = .error (.malformedError .invalidLineTermination) := by
  intro mids
  induction mids with
  | nil =>
    intro fuel P pad inp d0 d1 d2 sep c t R hd0 hd1 hd2 hsep _ ht13 ht10 hc hfuel
    cases fuel with
    | zero => omega
    | succ f =>
      simp only [read_multiline_loopF, contLines, List.nil_append]
      have hfill : fill_to_atleast
          (stateAt P (d0 :: d1 :: d2 :: sep :: (t ++ c :: R)) pad inp) 3
          = .ok (stateAt P (d0 :: d1 :: d2 :: sep :: (t ++ c :: R)) pad inp) :=
        fill_to_atleastF_done _ _ _ (by omega)
          (by simp [stateAt] <;> omega)
      rw [read_line_bad _ P t R pad inp d0 d1 d2 sep c hd0 hd1 hd2 hsep
        ht13 ht10 hc hfill]
  | cons t1 mrest ih =>
    intro fuel P pad inp d0 d1 d2 sep c t R hd0 hd1 hd2 hsep hmids ht13 ht10 hc hfuel
    cases fuel with
    | zero => simp at hfuel
    | succ f =>
      simp only [read_multiline_loopF, contLines, List.append_assoc]
      have hfill : fill_to_atleast
          (stateAt P (rawLine d0 d1 d2 45 t1 ++ (contLines d0 d1 d2 mrest
            ++ (d0 :: d1 :: d2 :: sep :: (t ++ c :: R)))) pad inp) 3
          = .ok (stateAt P (rawLine d0 d1 d2 45 t1 ++ (contLines d0 d1 d2 mrest
            ++ (d0 :: d1 :: d2 :: sep :: (t ++ c :: R)))) pad inp) :=
        fill_to_atleastF_done _ _ _ (by omega)
          (by simp [stateAt, length_rawLine] <;> omega)
      rw [read_line_from_fill _ P t1 (contLines d0 d1 d2 mrest
        ++ (d0 :: d1 :: d2 :: sep :: (t ++ c :: R))) pad inp d0 d1 d2 45
        hd0 hd1 hd2 (Or.inr rfl) (hmids t1 (by simp)) hfill]
      simp only [decide_eq_true_eq]
      rw [if_neg (by simp)]
      rw [if_neg (by simp)]
      exact ih f (P ++ procLine d0 d1 t1) pad inp d0 d1 d2 sep c t R hd0 hd1 hd2
        hsep (fun u hu => hmids u (by simp [hu])) ht13 ht10 hc
        (by simp at hfuel ⊢; omega)

/-- C7: an inbound reply whose line text region contains a bare LF, or a
CR followed by a byte other than LF, makes the read fail with
`MalformedError::InvalidLineTermination`.  The reply is any number of
well-formed continuation lines followed by the offending line, whose
text starts with clean bytes `t` and then shows `c` with the bad
pattern. -/
theorem c7_invalid_line_termination
    (cap : Nat) (mids : List (List Nat)) (t R : List Nat) (restInp : List (List Nat))
    (d0 d1 d2 sep c : Nat)
    (hd0 : isDigitByte d0 = true) (hd1 : isDigitByte d1 = true)
    (hd2 : isDigitByte d2 = true)
    (hsep : sep = 32 ∨ sep = 45)
    (hmids : ∀ u ∈ mids, textOk u)
    (ht13 : 13 ∉ t) (ht10 : 10 ∉ t)
    (hc : c = 10 ∨ (c = 13 ∧ ∃ x xs, R = x :: xs ∧ x ≠ 10))
    (hfit : (contLines d0 d1 d2 mids
      ++ (d0 :: d1 :: d2 :: sep :: (t ++ c :: R))).length ≤ cap) :
    runReply cap ((contLines d0 d1 d2 mids
        ++ (d0 :: d1 :: d2 :: sep :: (t ++ c :: R))) :: restInp)
      = .error (.malformedError .invalidLineTermination) := by
  set W := contLines d0 d1 d2 mids ++ (d0 :: d1 :: d2 :: sep :: (t ++ c :: R))
    with hW
  set pad := List.replicate (cap - W.length) 0 with hpad
  have hfill0 : fill_to_atleast
      { buf := List.replicate cap 0, ustart := 0, uend := 0, input := W :: restInp } 3
      = .ok ⟨W ++ pad, 0, W.length, restInp⟩ := by
    simp only [fill_to_atleast, List.length_replicate]
    exact fill_to_atleastF_preload cap W restInp 3 hfit
      (by rw [hW]; simp [List.length_append]; omega) (by omega)
  cases mids with
  | nil =>
    have hconv : (⟨W ++ pad, 0, W.length, restInp⟩ : SmtpState)
        = stateAt [] (d0 :: d1 :: d2 :: sep :: (t ++ c :: R)) pad restInp := by
      apply SmtpState_eq
      · simp [stateAt, hW, contLines]
      · rfl
      · simp [stateAt, hW, contLines]
      · rfl
    rw [hconv] at hfill0
    have hrl := read_line_bad _ [] t R pad restInp d0 d1 d2 sep c
      hd0 hd1 hd2 hsep ht13 ht10 hc hfill0
    simp only [runReply, read_multiline_reply, hrl]
  | cons t1 mrest =>
    have hconv : (⟨W ++ pad, 0, W.length, restInp⟩ : SmtpState)
        = stateAt [] (rawLine d0 d1 d2 45 t1 ++ (contLines d0 d1 d2 mrest
            ++ (d0 :: d1 :: d2 :: sep :: (t ++ c :: R)))) pad restInp := by
      apply SmtpState_eq
      · simp [stateAt, hW, contLines, List.append_assoc]
      · rfl
      · simp [stateAt, hW, contLines, List.append_assoc]
      · rfl
    rw [hconv] at hfill0
    have hrl := read_line_from_fill _ [] t1 (contLines d0 d1 d2 mrest
        ++ (d0 :: d1 :: d2 :: sep :: (t ++ c :: R))) pad restInp d0 d1 d2 45
      hd0 hd1 hd2 (Or.inr rfl) (hmids t1 (by simp)) hfill0
    simp only [runReply, read_multiline_reply, hrl]
    simp only [decide_eq_true_eq, if_false]
    have hfuel : mrest.length + 1
        ≤ (stateAt ([] ++ procLine d0 d1 t1) (contLines d0 d1 d2 mrest
            ++ (d0 :: d1 :: d2 :: sep :: (t ++ c :: R))) pad restInp).buf.length
          + 1 := by
      have h6 := length_contLines_ge d0 d1 d2 mrest
      simp [stateAt, List.length_append]
      omega
    rw [read_multiline_loop_bad mrest _ ([] ++ procLine d0 d1 t1) pad restInp
      d0 d1 d2 sep c t R hd0 hd1 hd2 hsep
      (fun u hu => hmids u (by simp [hu])) ht13 ht10 hc hfuel]
    simp only [if_neg (show ¬ (45 = 32) by omega)]

/-- Witness for C7: the reply `220 hi\n` — its terminator is a bare LF
(the line text region ends with `\n` not preceded by `\r`) — makes
`read_multiline_reply` fail with `InvalidLineTermination`. -/
theorem c7_invalid_line_termination_witness :
    (isDigitByte 50 = true ∧ isDigitByte 48 = true ∧
      ((32 : Nat) = 32 ∨ (32 : Nat) = 45) ∧
      13 ∉ strBytes "hi" ∧ 10 ∉ strBytes "hi" ∧
      (strBytes "220 hi\n").length ≤ 16) ∧
    runReply 16 [strBytes "220 hi\n"]
      = .error (.malformedError .invalidLineTermination) :=
  ⟨⟨by decide, by decide, Or.inl rfl, by decide, by decide, by decide⟩,
    c7_invalid_line_termination 16 [] (strBytes "hi") [] [] 50 50 48 32 10
      (by decide) (by decide) (by decide) (Or.inl rfl)
      (by intro u hu; cases hu) (by decide) (by decide) (Or.inl rfl)
      (by decide)⟩

/-! ## Claim C9 -/

theorem rangeInv_fill_buffer {s s1 : SmtpState} (h : rangeInv s)
    (hf : fill_buffer s = .ok s1) : rangeInv s1 := by
  obtain ⟨h2, h3⟩ := h
  unfold fill_buffer at hf
  split at hf
  · exact Except.noConfusion hf
  next chunk rest =>
    dsimp only at hf
    split at hf
    · exact Except.noConfusion hf
    next hn =>
      have h1 := Except.ok.inj hf
      rw [← h1]
      refine ⟨by simp; omega, ?_⟩
      simp only [writeBytes_length]
      omega

theorem rangeInv_fill_to_atleastF (fuel : Nat) :
    ∀ {s s1 : SmtpState} {n : Nat}, rangeInv s →
      fill_to_atleastF fuel s n = .ok s1 →
      rangeInv s1 ∧ n ≤ s1.uend - s1.ustart := by
  induction fuel with
  | zero =>
    intro s s1 n h hf
    exact Except.noConfusion hf
  | succ f ih =>
    intro s s1 n h hf
    unfold fill_to_atleastF at hf
    split at hf
    · split at hf
      · exact Except.noConfusion hf
      next s2 heq => exact ih (rangeInv_fill_buffer h heq) hf
    next hlt =>
      have h1 := Except.ok.inj hf
      rw [← h1]
      exact ⟨h, by omega⟩

theorem rangeInv_consume {s s1 : SmtpState} {n : Nat} {l : List Nat}
    (h : rangeInv s) (hc : consume s n = .ok (l, s1)) : rangeInv s1 := by
  unfold consume at hc
  split at hc
  · exact Except.noConfusion hc
  next s2 heq =>
    obtain ⟨⟨h2, h3⟩, h4⟩ := rangeInv_fill_to_atleastF (s.buf.length + 1) h heq
    have h5 := Except.ok.inj hc
    injection h5 with h5a h5b
    rw [← h5b]
    exact ⟨by simp; omega, by simp; omega⟩

theorem rangeInv_buffer_contains_terminator {s s1 : SmtpState}
    {r : Option (Nat × Nat)}
    (h : rangeInv s) (hb : buffer_contains_terminator s = .ok (r, s1)) :
    rangeInv s1 := by
  obtain ⟨h2, h3⟩ := h
  unfold buffer_contains_terminator at hb
  split at hb
  · exact Except.noConfusion hb
  · have h5 := Except.ok.inj hb
    injection h5 with h5a h5b
    rw [← h5b]
    exact ⟨h2, h3⟩
  next idx heq =>
    have h5 := Except.ok.inj hb
    injection h5 with h5a h5b
    rw [← h5b]
    have hle := scanTerminator_found_le _ _ heq
    have hreg : (region s).length = s.uend - s.ustart := by
      simp only [region, List.length_take, List.length_drop]
      omega
    rw [hreg] at hle
    exact ⟨by simp; omega, by simp; omega⟩

theorem rangeInv_consume_until_newlineF (fuel : Nat) :
    ∀ {s s1 : SmtpState} {l : List Nat}, rangeInv s →
      consume_until_newlineF fuel s = .ok (l, s1) → rangeInv s1 := by
  induction fuel with
  | zero =>
    intro s s1 l h hf
    exact Except.noConfusion hf
  | succ f ih =>
    intro s s1 l h hf
    unfold consume_until_newlineF at hf
    split at hf
    · exact Except.noConfusion hf
    next mstart len s2 heq =>
      dsimp only at hf
      have hinv2 := rangeInv_buffer_contains_terminator h heq
      have h5 := Except.ok.inj hf
      injection h5 with h5a h5b
      rw [← h5b]
      obtain ⟨h6, h7⟩ := hinv2
      refine ⟨by simp; omega, ?_⟩
      simp only [writeBytes_length]
      omega
    next s2 heq =>
      split at hf
      · exact Except.noConfusion hf
      next s3 heq2 =>
        exact ih (rangeInv_fill_buffer
          (rangeInv_buffer_contains_terminator h heq) heq2) hf

theorem rangeInv_read_line {s s1 : SmtpState} {r : ReplyLineM}
    (h : rangeInv s) (hr : read_line s = .ok (r, s1)) : rangeInv s1 := by
  unfold read_line at hr
  split at hr
  · exact Except.noConfusion hr
  next codeBytes s2 heq =>
    split at hr
    · exact Except.noConfusion hr
    next code heq2 =>
      split at hr
      · exact Except.noConfusion hr
      next sepBytes s3 heq3 =>
        split at hr
        · exact Except.noConfusion hr
        next is_last heq4 =>
          split at hr
          · exact Except.noConfusion hr
          next msg s4 heq5 =>
            split at hr
            · have h5 := Except.ok.inj hr
              injection h5 with h5a h5b
              rw [← h5b]
              exact rangeInv_consume_until_newlineF _
                (rangeInv_consume (rangeInv_consume h heq) heq3) heq5
            · exact Except.noConfusion hr

theorem rangeInv_read_multiline_loopF (fuel : Nat) :
    ∀ {code : Nat} {s s1 : SmtpState}, rangeInv s →
      read_multiline_loopF fuel code s = .ok s1 → rangeInv s1 := by
  induction fuel with
  | zero =>
    intro code s s1 h hf
    exact Except.noConfusion hf
  | succ f ih =>
    intro code s s1 h hf
    unfold read_multiline_loopF at hf
    split at hf
    · exact Except.noConfusion hf
    next r s2 heq =>
      split at hf
      · exact Except.noConfusion hf
      · split at hf
        · have h5 := Except.ok.inj hf
          rw [← h5]
          exact rangeInv_read_line h heq
        · exact ih (rangeInv_read_line h heq) hf

theorem rangeInv_read_multiline_reply {s s1 : SmtpState} {r : ReplyM}
    (hr : read_multiline_reply s = .ok (r, s1)) : rangeInv s1 := by
  have h0 : rangeInv { s with ustart := 0, uend := 0 } :=
    ⟨Nat.le_refl 0, Nat.zero_le _⟩
  cases hrl : read_line { s with ustart := 0, uend := 0 } with
  | error e =>
    simp only [read_multiline_reply, hrl] at hr
    exact Except.noConfusion hr
  | ok p =>
    obtain ⟨rl, s2⟩ := p
    have hinv2 := rangeInv_read_line h0 hrl
    simp only [read_multiline_reply, hrl] at hr
    by_cases hlast : rl.is_last
    · simp only [hlast, if_true] at hr
      have h5 := Except.ok.inj hr
      injection h5 with h5a h5b
      rw [← h5b]
      obtain ⟨h6, h7⟩ := hinv2
      refine ⟨by simp; omega, ?_⟩
      simp only [writeBytes_length]
      omega
    · simp only [hlast, if_false] at hr
      cases hloop : read_multiline_loopF (s2.buf.length + 1) rl.code s2 with
      | error e => rw [hloop] at hr; simp at hr
      | ok s3 =>
        rw [hloop] at hr
        have hinv3 := rangeInv_read_multiline_loopF _ hinv2 hloop
        have h5 := Except.ok.inj hr
        injection h5 with h5a h5b
        rw [← h5b]
        obtain ⟨h6, h7⟩ := hinv3
        refine ⟨by simp; omega, ?_⟩
        simp only [writeBytes_length]
        omega

/-- C9: every session operation preserves the unprocessed-range
invariant `ustart ≤ uend ≤ buffer capacity` (starts are `Nat`, so
`0 ≤ ustart` holds by construction), and `read_multiline_reply` resets
the range to `0..0` before reading a byte — its result is independent of
the incoming range. -/
theorem c9_range_invariant :
    (∀ s s1 : SmtpState, rangeInv s → fill_buffer s = .ok s1 → rangeInv s1) ∧
    (∀ (fuel n : Nat) (s s1 : SmtpState), rangeInv s →
      fill_to_atleastF fuel s n = .ok s1 → rangeInv s1) ∧
    (∀ (n : Nat) (s : SmtpState) (l : List Nat) (s1 : SmtpState), rangeInv s →
      consume s n = .ok (l, s1) → rangeInv s1) ∧
    (∀ (s : SmtpState) (r : Option (Nat × Nat)) (s1 : SmtpState), rangeInv s →
      buffer_contains_terminator s = .ok (r, s1) → rangeInv s1) ∧
    (∀ (fuel : Nat) (s : SmtpState) (l : List Nat) (s1 : SmtpState), rangeInv s →
      consume_until_newlineF fuel s = .ok (l, s1) → rangeInv s1) ∧
    (∀ (s : SmtpState) (r : ReplyLineM) (s1 : SmtpState), rangeInv s →
      read_line s = .ok (r, s1) → rangeInv s1) ∧
    (∀ (s : SmtpState) (r : ReplyM) (s1 : SmtpState),
      read_multiline_reply s = .ok (r, s1) → rangeInv s1) ∧
    (∀ (s : SmtpState) (a b : Nat),
      read_multiline_reply s
        = read_multiline_reply { s with ustart := a, uend := b }) :=
  ⟨fun _ _ h hf => rangeInv_fill_buffer h hf,
   fun fuel _ _ _ h hf => (rangeInv_fill_to_atleastF fuel h hf).1,
   fun _ _ _ _ h hc => rangeInv_consume h hc,
   fun _ _ _ h hb => rangeInv_buffer_contains_terminator h hb,
   fun fuel _ _ _ h hf => rangeInv_consume_until_newlineF fuel h hf,
   fun _ _ _ h hr => rangeInv_read_line h hr,
   fun _ _ _ hr => rangeInv_read_multiline_reply hr,
   fun _ _ _ => rfl⟩

end SimpleSmtp
